import Mathlib

/-!
Verification of go-webserver-sample: response translation and the
notification hub.

A shallow embedding of `internal/pkg/httpserver/wrappers.go` (the handler
wrappers that turn a handler result into an HTTP response, and the decoding
of JSON request bodies) and of `internal/pkg/wsnotify/hub.go` (the registry of
websocket clients), with the properties of both that the specification
states. The library functions that the wrappers call (`errors.Cause`,
`json.Marshal`, `json.Decoder`, `fmt.Errorf`, `utf8.DecodeRune`) are embedded
as far as the wrappers use them.

Go strings and byte slices are lists of byte values (`Nat`, each below 256);
Go `int` values are `Int`. A Go panic is the result `none`.
-/

namespace GoWeb

/-- Go `string` / `[]byte` contents: a sequence of byte values. -/
abbrev Bytes := List Nat

/-- The bytes of an ASCII string literal of the source. -/
def ascii (s : String) : Bytes := s.toList.map Char.toNat

/-! ## Error values -/

/-- Go `error` values as the wrappers see them: a plain error with a text
only (`errors.New`, `fmt.Errorf`, decoder errors), the two wrappers of
`github.com/pkg/errors` (`WithMessage` and `WithStack`, which `Wrap` combines
and which both have a `Cause()` method), and the status-carrying
`statusErrorImpl` of `wrappers.go`. A nil `error` is `none : Option GoError`. -/
inductive GoError where
  | fundamental (msg : Bytes)
  | withMessage (cause : GoError) (msg : Bytes)
  | withStack (cause : GoError)
  | statusErrorImpl (code : Int) (err : GoError)
deriving DecidableEq, Repr

namespace GoError

/-- The method `Error() string`: `statusErrorImpl.Error` returns
`se.err.Error()`; `withMessage.Error` is `msg + ": " + cause.Error()`;
`withStack.Error` is the cause's text. -/
def Error : GoError → Bytes
  | fundamental msg => msg
  | withMessage cause msg => msg ++ ascii ": " ++ cause.Error
  | withStack cause => cause.Error
  | statusErrorImpl _ err => err.Error

/-- The type assertion `cause.(HTTPStatusError)` followed by
`HTTPStatusCode()`: only `statusErrorImpl` has the method. -/
def HTTPStatusCode : GoError → Option Int
  | statusErrorImpl code _ => some code
  | _ => none

/-- The loop of `errors.Cause` on a non-nil error: follow `Cause()` while the
error has that method. -/
def Cause : GoError → GoError
  | withMessage cause _ => cause.Cause
  | withStack cause => cause.Cause
  | e => e

end GoError

/-- The function `errors.Cause(err)`: nil for a nil error. -/
def errorsCause (err : Option GoError) : Option GoError :=
  err.map GoError.Cause

/-- The function `errors.Wrap(err, message)`: nil for a nil error, otherwise
the error with the message and a stack attached. -/
def errorsWrap (err : Option GoError) (message : Bytes) : Option GoError :=
  err.map fun e => GoError.withStack (GoError.withMessage e message)

/-! ## UTF-8 (package `unicode/utf8`) -/

/-- The constant `utf8.RuneError`, U+FFFD. -/
def RuneError : Nat := 0xFFFD

/-- The function `utf8.DecodeRune`: the first rune of `p` and its width in
bytes; `(RuneError, 1)` for an invalid or short encoding, `(RuneError, 0)` for
empty input. Masks and shifts are written as `%` and `*`. -/
def decodeRune : Bytes → Nat × Nat
  | [] => (RuneError, 0)
  | b0 :: rest =>
    if b0 < 0x80 then (b0, 1)
    else if b0 < 0xC2 then (RuneError, 1)
    else if b0 < 0xE0 then
      match rest with
      | b1 :: _ =>
        if 0x80 ≤ b1 ∧ b1 ≤ 0xBF then ((b0 % 32) * 64 + b1 % 64, 2) else (RuneError, 1)
      | [] => (RuneError, 1)
    else if b0 < 0xF0 then
      match rest with
      | b1 :: b2 :: _ =>
        if (if b0 = 0xE0 then 0xA0 else 0x80) ≤ b1 ∧ b1 ≤ (if b0 = 0xED then 0x9F else 0xBF)
            ∧ 0x80 ≤ b2 ∧ b2 ≤ 0xBF then
          ((b0 % 16) * 4096 + (b1 % 64) * 64 + b2 % 64, 3)
        else (RuneError, 1)
      | _ => (RuneError, 1)
    else if b0 < 0xF5 then
      match rest with
      | b1 :: b2 :: b3 :: _ =>
        if (if b0 = 0xF0 then 0x90 else 0x80) ≤ b1 ∧ b1 ≤ (if b0 = 0xF4 then 0x8F else 0xBF)
            ∧ 0x80 ≤ b2 ∧ b2 ≤ 0xBF ∧ 0x80 ≤ b3 ∧ b3 ≤ 0xBF then
          ((b0 % 8) * 262144 + (b1 % 64) * 4096 + (b2 % 64) * 64 + b3 % 64, 4)
        else (RuneError, 1)
      | _ => (RuneError, 1)
    else (RuneError, 1)

/-- The function `utf8.AppendRune` / `utf8.EncodeRune`: the UTF-8 encoding of
a rune; surrogates and values above U+10FFFF are encoded as U+FFFD. -/
def encodeRune (r : Nat) : Bytes :=
  if r < 0x80 then [r]
  else if r < 0x800 then [0xC0 + r / 64, 0x80 + r % 64]
  else if (0xD800 ≤ r ∧ r ≤ 0xDFFF) ∨ 0x10FFFF < r then [0xEF, 0xBF, 0xBD]
  else if r < 0x10000 then [0xE0 + r / 4096, 0x80 + r / 64 % 64, 0x80 + r % 64]
  else [0xF0 + r / 262144, 0x80 + r / 4096 % 64, 0x80 + r / 64 % 64, 0x80 + r % 64]

/-- The function `utf8.Valid`: no position of the input decodes to an
encoding error. The first argument counts continuation bytes still to skip. -/
def utf8ValidAux : Nat → Bytes → Bool
  | _, [] => true
  | skip + 1, _ :: rest => utf8ValidAux skip rest
  | 0, b :: rest =>
    let rs := decodeRune (b :: rest)
    if rs.1 = RuneError ∧ rs.2 = 1 then false else utf8ValidAux (rs.2 - 1) rest

/-- The function `utf8.Valid`. -/
def utf8Valid (s : Bytes) : Bool := utf8ValidAux 0 s

/-- The string with every byte that is not part of a valid UTF-8 encoding
replaced by the three bytes of U+FFFD: what the encoder makes of a Go string.
The first argument counts continuation bytes of the current rune still to be
copied. -/
def toValidUTF8Aux : Nat → Bytes → Bytes
  | _, [] => []
  | skip + 1, b :: rest => b :: toValidUTF8Aux skip rest
  | 0, b :: rest =>
    if (decodeRune (b :: rest)).1 = RuneError ∧ (decodeRune (b :: rest)).2 = 1 then
      encodeRune RuneError ++ toValidUTF8Aux 0 rest
    else b :: toValidUTF8Aux ((decodeRune (b :: rest)).2 - 1) rest

/-- The coercion of a Go string to valid UTF-8. -/
def toValidUTF8 (s : Bytes) : Bytes := toValidUTF8Aux 0 s

/-! ## JSON encoding (package `encoding/json`, as used by `toJSON`) -/

/-- The table `hex = "0123456789abcdef"`. -/
def hexDigit (n : Nat) : Nat := if n < 10 then 48 + n else 87 + n

/-- The table `htmlSafeSet`: the ASCII bytes written to a JSON string as they
are; every byte from space on except the quote, the backslash, and the
characters `&`, `<` and `>`. -/
def htmlSafe (b : Nat) : Bool :=
  0x20 ≤ b && b < 0x80 && b != 0x22 && b != 0x5C && b != 0x26 && b != 0x3C && b != 0x3E

/-- The escape that the string encoder writes for an ASCII byte outside
`htmlSafeSet`: a two-character escape for the quote, the backslash, and the
bytes 0x08, 0x0C, 0x0A, 0x0D, 0x09, and `\u00XX` otherwise. (Older
toolchains write `\u0008` and `\u000c`; the decoder reads both forms as the
same byte.) -/
def escapeByte (b : Nat) : Bytes :=
  if b = 0x5C ∨ b = 0x22 then [0x5C, b]
  else if b = 0x08 then ascii "\\b"
  else if b = 0x0C then ascii "\\f"
  else if b = 0x0A then ascii "\\n"
  else if b = 0x0D then ascii "\\r"
  else if b = 0x09 then ascii "\\t"
  else ascii "\\u00" ++ [hexDigit (b / 16), hexDigit (b % 16)]

/-- The loop of the string encoder over the source bytes (between the two
quotes). A byte that is not valid UTF-8 is replaced by the three bytes of
U+FFFD (older toolchains write the escape of U+FFFD instead, which the
decoder reads as the same three bytes). The first argument counts the bytes
of the current rune still to be passed over, for the encoder advances by the
width of the rune. -/
def appendStringAux : Nat → Bytes → Bytes
  | _, [] => []
  | skip + 1, _ :: rest => appendStringAux skip rest
  | 0, b :: rest =>
    if b < 0x80 then
      (if htmlSafe b then [b] else escapeByte b) ++ appendStringAux 0 rest
    else
      let rs := decodeRune ((b :: rest).take 4)
      if rs.1 = RuneError ∧ rs.2 = 1 then
        encodeRune RuneError ++ appendStringAux 0 rest
      else if rs.1 = 0x2028 ∨ rs.1 = 0x2029 then
        ascii "\\u202" ++ [hexDigit (rs.1 % 16)] ++ appendStringAux (rs.2 - 1) rest
      else
        (b :: rest).take rs.2 ++ appendStringAux (rs.2 - 1) rest

/-- The string encoder of `encoding/json` with HTML escaping on, as
`json.Marshal` uses it: a quoted JSON string in which invalid UTF-8 is
replaced by U+FFFD. -/
def appendString (src : Bytes) : Bytes :=
  [0x22] ++ appendStringAux 0 src ++ [0x22]

/-- Decimal digits of a natural number, least significant first; the first
argument bounds the number of digits. -/
def digitsRev : Nat → Nat → Bytes
  | 0, _ => []
  | fuel + 1, n => if n < 10 then [48 + n] else (48 + n % 10) :: digitsRev fuel (n / 10)

/-- The function `strconv.AppendInt(_, v, 10)`: the decimal text of an
integer. -/
def formatInt (v : Int) : Bytes :=
  (if v < 0 then [0x2D] else []) ++ (digitsRev (v.natAbs + 1) v.natAbs).reverse

/-- The struct `JSONErrorStruct` of `server.go`, with JSON field names `msg`
and `code`. -/
structure JSONErrorStruct where
  Msg : Bytes
  Code : Int
deriving DecidableEq, Repr

/-- The function `toJSON` at a `JSONErrorStruct`: `json.Marshal` writes the
fields in declaration order under their tag names and cannot fail on this
type. -/
def toJSON (src : JSONErrorStruct) : Bytes :=
  ascii "\x7b\"msg\":" ++ appendString src.Msg ++ ascii ",\"code\":" ++ formatInt src.Code ++ ascii "\x7d"

/-! ## The handler wrappers (`wrappers.go`) -/

/-- What `ServeHTTP` leaves in the `http.ResponseWriter`: the `Content-Type`
header if it was set, the code that `WriteHeader` was given and accepted, and
the bytes passed to `Write`. -/
structure Response where
  contentType : Option Bytes
  status : Int
  body : Bytes
deriving DecidableEq, Repr

/-- The function `isBadCode`: `code/100 != 2`, with Go's integer division
(truncated toward zero). -/
def isBadCode (code : Int) : Bool := Int.tdiv code 100 != 2

/-- The content of the writer after the tail of `ServeHTTP` has run: the
content type set if `data` is not nil, the header written, the data written. -/
def writeResponse (data : Option Bytes) (code : Int) : Response :=
  { contentType := if data.isSome then some (ascii "application/json") else none
    status := code
    body := data.getD [] }

/-- The function `checkWriteHeaderCode` of `net/http`, which `WriteHeader`
calls before anything is written: it panics unless the code has three digits.
The result tells whether the code passes. -/
def checkWriteHeaderCode (code : Int) : Bool := decide (100 ≤ code) && decide (code ≤ 999)

/-- The tail of `ServeHTTP`: `w.Header().Set`, `w.WriteHeader(code)`,
`w.Write(data)`; `none` when `WriteHeader` panics, in which case no status and
no body are written. -/
def sendResponse (data : Option Bytes) (code : Int) : Option Response :=
  if checkWriteHeaderCode code then some (writeResponse data code) else none

/-- The method `dataHandler.ServeHTTP`, as a function of the result
`(data, err)` that the wrapped handler returned. Log calls are left out, they
do not touch the response. The result is `none` where the Go code panics:
where it would dereference a nil `cause`, and where `WriteHeader` refuses
the code. -/
def dataHandler.ServeHTTP (result : Option Bytes × Option GoError) : Option Response :=
  let data := result.1
  let err := result.2
  let cause := errorsCause err
  let code : Int :=
    match cause.bind GoError.HTTPStatusCode with
    | some c => c
    | none => if cause = none then 200 else 500
  let data := if code = 204 then none else data
  if isBadCode code then
    match cause with
    | none => none
    | some c => sendResponse (some (toJSON { Code := code, Msg := c.Error })) code
  else
    sendResponse data code

/-- The method `jsonHandler.serve`, as a function of the result `(obj, err)` of
the wrapped handler; `marshal` is `json.Marshal` at the type of the object. -/
def jsonHandler.serve {α : Type} (marshal : α → Except GoError Bytes)
    (result : Option α × Option GoError) : Option Bytes × Option GoError :=
  match result with
  | (_, some err) => (none, some err)
  | (none, none) => (none, none)
  | (some obj, none) =>
    match marshal obj with
    | .ok bytes => (some bytes, none)
    | .error e => (none, some e)

/-! ### Formatting without operands (package `fmt`)

`httpStatusString` and `httpStatusError` pass a text to `fmt.Errorf` as the
format, with no operands. -/

/-- The loop of `parsenum`: the number read so far, whether a digit was seen,
and the input after the digits; `none` when the number grows too large. -/
def parsenumAux : Nat → Bool → Bytes → Option (Nat × Bool × Bytes)
  | num, isnum, [] => some (num, isnum, [])
  | num, isnum, c :: rest =>
    if 0x30 ≤ c ∧ c ≤ 0x39 then
      if 1000000 < num then none else parsenumAux (num * 10 + (c - 0x30)) true rest
    else some (num, isnum, c :: rest)

/-- The function `parsenum` from the current position to the end of the
format: whether a number is present and the format after it. When the number
is too large `parsenum` reports the end of the format as the new position. -/
def parsenum (format : Bytes) : Bool × Bytes :=
  match parsenumAux 0 false format with
  | none => (false, [])
  | some r => (r.2.1, r.2.2)

/-- The function `parseArgNumber` on a format that starts with `[`: the width
of the bracketed index and whether it is well formed. -/
def parseArgNumber (format : Bytes) : Nat × Bool :=
  if format.length < 3 then (1, false)
  else
    match (format.drop 1).indexOf? 0x5D with
    | none => (1, false)
    | some k =>
      match parsenumAux 0 false ((format.drop 1).take k) with
      | some (_, true, []) => (k + 2, true)
      | _ => (k + 2, false)

/-- The method `pp.argNumber` when there are no operands: the format after an
explicit index `[n]`, whether one was found, and the flag `goodArgNum`, which
an index always clears because no operand exists. -/
def argNumber (format : Bytes) (good : Bool) : Bytes × Bool × Bool :=
  if format.head? = some 0x5B then
    (format.drop (parseArgNumber format).1, (parseArgNumber format).2, false)
  else (format, false, good)

/-- Whether a byte is one of the flags `#0+- `. -/
def isFlag (c : Nat) : Bool := c == 0x23 || c == 0x30 || c == 0x2B || c == 0x2D || c == 0x20

/-- The width part of a verb: the text written, the format after it, and the
flags `afterIndex` and `goodArgNum`. -/
def verbWidth (format : Bytes) (afterIndex good : Bool) : Bytes × Bytes × Bool × Bool :=
  if format.head? = some 0x2A then (ascii "%!(BADWIDTH)", format.tail, false, good)
  else ([], (parsenum format).2, afterIndex, good && !(afterIndex && (parsenum format).1))

/-- The precision part of a verb; a `.` counts as the start of a precision
only when a byte follows it (`i+1 < end`). -/
def verbPrecision (format : Bytes) (afterIndex good : Bool) : Bytes × Bytes × Bool × Bool :=
  if format.head? = some 0x2E ∧ 1 < format.length then
    let a := argNumber format.tail (good && !afterIndex)
    if a.1.head? = some 0x2A then (ascii "%!(BADPREC)", a.1.tail, false, a.2.2)
    else ([], (parsenum a.1).2, a.2.1, a.2.2)
  else ([], format, afterIndex, good)

/-- One verb of `doPrintf` with no operands, from just after the `%`: the
text written and the format left, `none` when the format ended before the
verb (the loop stops there). -/
def formatVerb (format : Bytes) : Bytes × Option Bytes :=
  let a1 := argNumber (format.dropWhile isFlag) true
  let w := verbWidth a1.1 a1.2.1 a1.2.2
  let p := verbPrecision w.2.1 w.2.2.1 w.2.2.2
  let a2 := if p.2.2.1 then (p.2.1, p.2.2.1, p.2.2.2) else argNumber p.2.1 p.2.2.2
  match a2.1 with
  | [] => (w.1 ++ p.1 ++ ascii "%!(NOVERB)", none)
  | c :: rest =>
    let verb : Nat × Nat := if c < 0x80 then (c, 1) else decodeRune (c :: rest)
    (w.1 ++ p.1 ++
      (if verb.1 = 0x25 then [0x25]
       else if a2.2.2 = false then ascii "%!" ++ encodeRune verb.1 ++ ascii "(BADINDEX)"
       else ascii "%!" ++ encodeRune verb.1 ++ ascii "(MISSING)"),
     some ((c :: rest).drop verb.2))

/-- The loop of `doPrintf` with no operands; the first argument bounds the
number of steps. -/
def doPrintf : Nat → Bytes → Bytes
  | 0, _ => []
  | _ + 1, [] => []
  | fuel + 1, c :: rest =>
    if c = 0x25 then
      match (formatVerb rest).2 with
      | none => (formatVerb rest).1
      | some rest1 => (formatVerb rest).1 ++ doPrintf fuel rest1
    else c :: doPrintf fuel rest

/-- The function `fmt.Sprintf(format)` with no operands. -/
def fmtSprintf (format : Bytes) : Bytes := doPrintf (format.length + 1) format

/-- The function `fmt.Errorf(format)` with no operands. -/
def fmtErrorf (format : Bytes) : GoError := GoError.fundamental (fmtSprintf format)

/-- The function `http.StatusText`: the text of a known status code, empty
for any other code. -/
def httpStatusText (code : Int) : Bytes :=
  if code = 100 then ascii "Continue"
  else if code = 101 then ascii "Switching Protocols"
  else if code = 102 then ascii "Processing"
  else if code = 103 then ascii "Early Hints"
  else if code = 200 then ascii "OK"
  else if code = 201 then ascii "Created"
  else if code = 202 then ascii "Accepted"
  else if code = 203 then ascii "Non-Authoritative Information"
  else if code = 204 then ascii "No Content"
  else if code = 205 then ascii "Reset Content"
  else if code = 206 then ascii "Partial Content"
  else if code = 207 then ascii "Multi-Status"
  else if code = 208 then ascii "Already Reported"
  else if code = 226 then ascii "IM Used"
  else if code = 300 then ascii "Multiple Choices"
  else if code = 301 then ascii "Moved Permanently"
  else if code = 302 then ascii "Found"
  else if code = 303 then ascii "See Other"
  else if code = 304 then ascii "Not Modified"
  else if code = 305 then ascii "Use Proxy"
  else if code = 307 then ascii "Temporary Redirect"
  else if code = 308 then ascii "Permanent Redirect"
  else if code = 400 then ascii "Bad Request"
  else if code = 401 then ascii "Unauthorized"
  else if code = 402 then ascii "Payment Required"
  else if code = 403 then ascii "Forbidden"
  else if code = 404 then ascii "Not Found"
  else if code = 405 then ascii "Method Not Allowed"
  else if code = 406 then ascii "Not Acceptable"
  else if code = 407 then ascii "Proxy Authentication Required"
  else if code = 408 then ascii "Request Timeout"
  else if code = 409 then ascii "Conflict"
  else if code = 410 then ascii "Gone"
  else if code = 411 then ascii "Length Required"
  else if code = 412 then ascii "Precondition Failed"
  else if code = 413 then ascii "Request Entity Too Large"
  else if code = 414 then ascii "Request URI Too Long"
  else if code = 415 then ascii "Unsupported Media Type"
  else if code = 416 then ascii "Requested Range Not Satisfiable"
  else if code = 417 then ascii "Expectation Failed"
  else if code = 418 then ascii "I\x27m a teapot"
  else if code = 421 then ascii "Misdirected Request"
  else if code = 422 then ascii "Unprocessable Entity"
  else if code = 423 then ascii "Locked"
  else if code = 424 then ascii "Failed Dependency"
  else if code = 425 then ascii "Too Early"
  else if code = 426 then ascii "Upgrade Required"
  else if code = 428 then ascii "Precondition Required"
  else if code = 429 then ascii "Too Many Requests"
  else if code = 431 then ascii "Request Header Fields Too Large"
  else if code = 451 then ascii "Unavailable For Legal Reasons"
  else if code = 500 then ascii "Internal Server Error"
  else if code = 501 then ascii "Not Implemented"
  else if code = 502 then ascii "Bad Gateway"
  else if code = 503 then ascii "Service Unavailable"
  else if code = 504 then ascii "Gateway Timeout"
  else if code = 505 then ascii "HTTP Version Not Supported"
  else if code = 506 then ascii "Variant Also Negotiates"
  else if code = 507 then ascii "Insufficient Storage"
  else if code = 508 then ascii "Loop Detected"
  else if code = 510 then ascii "Not Extended"
  else if code = 511 then ascii "Network Authentication Required"
  else []

/-- The function `httpStatusError`: a nil error is replaced by
`fmt.Errorf(http.StatusText(code))`. -/
def httpStatusError (code : Int) (err : Option GoError) : GoError :=
  GoError.statusErrorImpl code (err.getD (fmtErrorf (httpStatusText code)))

/-- The function `httpStatusString`: the message is the format of
`fmt.Errorf`. -/
def httpStatusString (code : Int) (msg : Bytes) : GoError :=
  GoError.statusErrorImpl code (fmtErrorf msg)

/-- The function `httpStatus`. -/
def httpStatus (code : Int) : GoError := httpStatusError code none

/-- The handler `handleError400`, which returns `(nil, httpStatus(400))`. -/
def handleError400 : Option Bytes × Option GoError := (none, some (httpStatus 400))

/-- The handler `handleData`, which returns `("123", nil)`. -/
def handleData : Option Bytes × Option GoError := (some (ascii "123"), none)

/-- The error `errors.Wrap(errors.New("boom"), "ctx")`. -/
def wrappedBoom : GoError :=
  GoError.withStack (GoError.withMessage (GoError.fundamental (ascii "boom")) (ascii "ctx"))

/-! ## The notification hub (`wsnotify/hub.go`, `wsnotify/client.go`) -/

/-- A `*client` pointer: the identity of one accepted connection. -/
abbrev ClientRef := Nat

/-- The channel `client.send`: the payloads pending in its buffer, oldest
first, and whether it has been closed. -/
structure SendChan where
  queue : List Bytes
  closed : Bool
deriving DecidableEq, Repr

/-- The capacity of `client.send`, from `make(chan []byte, 256)` in `ServeWs`. -/
def sendCap : Nat := 256

/-- The struct `hubMsg`: a broadcast request. -/
structure hubMsg where
  userID : Int
  msg : Bytes
deriving DecidableEq, Repr

/-- What the loop of `Hub.Run` reads and writes: the keys of the map
`h.clients` (a duplicate-free list, in the order in which `range` visits
them, which is arbitrary), and for every client its immutable `userID` and
the state of its `send` channel. -/
structure Hub where
  clients : List ClientRef
  nodup : clients.Nodup
  userID : ClientRef → Int
  send : ClientRef → SendChan

/-- The builtin `close(ch)`: closing a closed channel panics (`none`). -/
def closeChan (ch : SendChan) : Option SendChan :=
  if ch.closed then none else some { ch with closed := true }

/-- The function `NewHub`: the hub before any event, with an empty map. Every
client that `ServeWs` will create has its `send` channel open and empty. -/
def NewHub (userID : ClientRef → Int) : Hub :=
  { clients := []
    nodup := List.nodup_nil
    userID := userID
    send := fun _ => { queue := [], closed := false } }

namespace Hub

/-- Assignment to the channel state of one client. -/
def setSend (h : Hub) (c : ClientRef) (ch : SendChan) : Hub :=
  { h with send := fun d => if d = c then ch else h.send d }

/-- The statement `h.clients[client] = true`. -/
def insert (h : Hub) (c : ClientRef) : Hub :=
  { h with clients := h.clients.insert c, nodup := h.nodup.insert }

/-- The statement `delete(h.clients, client)`. -/
def delete (h : Hub) (c : ClientRef) : Hub :=
  { h with clients := h.clients.erase c, nodup := h.nodup.erase c }

/-- The case `client := <-h.register` of `Run`. -/
def register (h : Hub) (c : ClientRef) : Option Hub :=
  some (h.insert c)

/-- The case `client := <-h.unregister` of `Run`: if the client is in the
map, delete it and close its channel. -/
def unregister (h : Hub) (c : ClientRef) : Option Hub :=
  if c ∈ h.clients then
    match closeChan (h.send c) with
    | none => none
    | some ch => some ((h.delete c).setSend c ch)
  else some h

/-- The body of the loop `for client := range h.clients` in the broadcast
case: skip a client of another user; otherwise a non-blocking send, which
panics on a closed channel, succeeds when the buffer has room, and otherwise
falls to `default`, which closes the channel and deletes the client. -/
def deliver (hmsg : hubMsg) (h : Hub) (c : ClientRef) : Option Hub :=
  if hmsg.userID ≠ h.userID c then some h
  else if (h.send c).closed then none
  else if (h.send c).queue.length < sendCap then
    some (h.setSend c { h.send c with queue := (h.send c).queue ++ [hmsg.msg] })
  else
    match closeChan (h.send c) with
    | none => none
    | some ch => some ((h.setSend c ch).delete c)

/-- The case `hmsg := <-h.broadcast` of `Run`: the loop over the clients that
are in the map when it starts (the only entry deleted during the loop is the
one being visited). -/
def broadcast (h : Hub) (hmsg : hubMsg) : Option Hub :=
  h.clients.foldlM (deliver hmsg) h

/-- The receive `message, ok := <-c.send` of `writePump`, which runs beside
the hub: it takes the oldest pending payload, if there is one. -/
def receive (h : Hub) (c : ClientRef) : Option Hub :=
  some (h.setSend c { h.send c with queue := (h.send c).queue.tail })

end Hub

/-- The events that change the registry and the channels: the three message
cases of the `select` in `Hub.Run`, and a receive by a client's `writePump`. -/
inductive HubEvent where
  | register (c : ClientRef)
  | unregister (c : ClientRef)
  | broadcast (hmsg : hubMsg)
  | receive (c : ClientRef)
deriving DecidableEq, Repr

/-- One iteration of the loop of `Hub.Run` (or one receive of a `writePump`);
`none` when the Go code panics. -/
def Hub.step (h : Hub) : HubEvent → Option Hub
  | .register c => h.register c
  | .unregister c => h.unregister c
  | .broadcast hmsg => h.broadcast hmsg
  | .receive c => h.receive c

/-- The events of a list processed in order. -/
def Hub.run (h : Hub) (evs : List HubEvent) : Option Hub :=
  evs.foldlM Hub.step h

/-- The clients that the register events of a list name, in order. -/
def registeredBy : List HubEvent → List ClientRef
  | [] => []
  | .register c :: evs => c :: registeredBy evs
  | _ :: evs => registeredBy evs

/-- The channel of a client of user `u` after the hub has tried to deliver
`hmsg` to it: unchanged for another user, the payload appended if there is
room, closed otherwise. -/
def deliverChan (hmsg : hubMsg) (u : Int) (ch : SendChan) : SendChan :=
  if hmsg.userID ≠ u then ch
  else if ch.queue.length < sendCap then { ch with queue := ch.queue ++ [hmsg.msg] }
  else { ch with closed := true }

/-- A hub with three registered clients: client 0 (user 7) has a full queue,
client 1 (user 7) an empty one, client 2 belongs to user 8. -/
def sampleHub : Hub :=
  { clients := [0, 1, 2]
    nodup := by decide
    userID := fun c => if c = 2 then 8 else 7
    send := fun c => if c = 0 then { queue := List.replicate 256 [], closed := false }
                     else { queue := [], closed := false } }

/-! ## JSON decoding (package `encoding/json`, as used by `parseJSONBody` and
by the test helper `runRequestHandler`) -/

/-- The function `isSpace` of the scanner: space, tab, carriage return and
newline. -/
def isSpace (c : Nat) : Bool := c == 0x20 || c == 0x09 || c == 0x0D || c == 0x0A

/-- Input with its leading JSON whitespace removed. -/
def skipSpace : Bytes → Bytes
  | [] => []
  | c :: rest => if isSpace c then skipSpace rest else c :: rest

/-- Whether a byte is a decimal digit. -/
def isDigit (c : Nat) : Bool := 0x30 ≤ c && c ≤ 0x39

/-- The value of a hexadecimal digit, in either case. -/
def hexVal (c : Nat) : Option Nat :=
  if 0x30 ≤ c ∧ c ≤ 0x39 then some (c - 0x30)
  else if 0x61 ≤ c ∧ c ≤ 0x66 then some (c - 0x61 + 10)
  else if 0x41 ≤ c ∧ c ≤ 0x46 then some (c - 0x41 + 10)
  else none

/-- The function `getu4`: the code unit of an escape `\uXXXX` at the start of
the input, if there is one. -/
def getu4 : Bytes → Option Nat
  | b :: u :: x1 :: x2 :: x3 :: x4 :: _ =>
    if b = 0x5C ∧ u = 0x75 then
      match hexVal x1, hexVal x2, hexVal x3, hexVal x4 with
      | some a, some b, some c, some d => some (((a * 16 + b) * 16 + c) * 16 + d)
      | _, _, _, _ => none
    else none
  | _ => none

/-- The function `utf16.IsSurrogate`. -/
def isSurrogate (r : Nat) : Bool := 0xD800 ≤ r && r < 0xE000

/-- The function `utf16.DecodeRune`: the rune of a surrogate pair, U+FFFD if
the pair is not valid. -/
def utf16DecodeRune (r1 r2 : Nat) : Nat :=
  if 0xD800 ≤ r1 ∧ r1 < 0xDC00 ∧ 0xDC00 ≤ r2 ∧ r2 < 0xE000 then
    (r1 - 0xD800) * 1024 + (r2 - 0xDC00) + 0x10000
  else RuneError

/-- The byte that a two-character escape of a JSON string stands for. -/
def simpleEscape (e : Nat) : Option Nat :=
  if e = 0x22 ∨ e = 0x5C ∨ e = 0x2F then some e
  else if e = 0x62 then some 0x08
  else if e = 0x66 then some 0x0C
  else if e = 0x6E then some 0x0A
  else if e = 0x72 then some 0x0D
  else if e = 0x74 then some 0x09
  else none

/-- A string literal read from just after its opening quote: the scanner's
check of the literal together with `unquote`. The result is the decoded
string and the input after the closing quote; `none` for a literal that the
scanner rejects or that does not end. Bytes from 0x80 on are decoded and
encoded again, which coerces invalid UTF-8 to U+FFFD. The first argument
counts bytes of the current escape or rune still to be passed over. -/
def unquoteAux : Nat → Bytes → Option (Bytes × Bytes)
  | _, [] => none
  | skip + 1, _ :: rest => unquoteAux skip rest
  | 0, c :: rest =>
    if c = 0x22 then some ([], rest)
    else if c = 0x5C then
      match rest with
      | [] => none
      | e :: _ =>
        if e = 0x75 then
          match getu4 (c :: rest) with
          | none => none
          | some rr =>
            if isSurrogate rr then
              match getu4 (rest.drop 5) with
              | some rr1 =>
                if utf16DecodeRune rr rr1 ≠ RuneError then
                  (unquoteAux 11 rest).map
                    fun p => (encodeRune (utf16DecodeRune rr rr1) ++ p.1, p.2)
                else (unquoteAux 5 rest).map fun p => (encodeRune RuneError ++ p.1, p.2)
              | none => (unquoteAux 5 rest).map fun p => (encodeRune RuneError ++ p.1, p.2)
            else (unquoteAux 5 rest).map fun p => (encodeRune rr ++ p.1, p.2)
        else
          match simpleEscape e with
          | some b => (unquoteAux 1 rest).map fun p => (b :: p.1, p.2)
          | none => none
    else if c < 0x20 then none
    else if c < 0x80 then (unquoteAux 0 rest).map fun p => (c :: p.1, p.2)
    else
      (unquoteAux ((decodeRune (c :: rest)).2 - 1) rest).map
        fun p => (encodeRune (decodeRune (c :: rest)).1 ++ p.1, p.2)

/-- The longest run of decimal digits at the start of the input, and what
follows it. -/
def takeDigits : Bytes → Bytes × Bytes
  | [] => ([], [])
  | c :: rest =>
    if isDigit c then ((c :: (takeDigits rest).1), (takeDigits rest).2) else ([], c :: rest)

/-- The optional part `[eE][+-]?[0-9]+` of a number. -/
def parseExponent (input : Bytes) : Option (Bytes × Bytes) :=
  match input with
  | e :: rest =>
    if e = 0x65 ∨ e = 0x45 then
      match rest with
      | s :: rest1 =>
        if s = 0x2B ∨ s = 0x2D then
          if (takeDigits rest1).1 = [] then none
          else some (e :: s :: (takeDigits rest1).1, (takeDigits rest1).2)
        else if (takeDigits rest).1 = [] then none
        else some (e :: (takeDigits rest).1, (takeDigits rest).2)
      | [] => none
    else some ([], input)
  | [] => some ([], input)

/-- The optional part `.[0-9]+` of a number, followed by the exponent. -/
def parseFraction (input : Bytes) : Option (Bytes × Bytes) :=
  match input with
  | dot :: rest =>
    if dot = 0x2E then
      if (takeDigits rest).1 = [] then none
      else (parseExponent (takeDigits rest).2).map
        fun p => (dot :: (takeDigits rest).1 ++ p.1, p.2)
    else parseExponent input
  | [] => some ([], input)

/-- A number literal, by the grammar of the scanner (`-`? then `0` or a run of
digits not starting with `0`, then fraction and exponent): its text and the
input after it. -/
def parseNumber (input : Bytes) : Option (Bytes × Bytes) :=
  let sign : Bytes := if input.head? = some 0x2D then [0x2D] else []
  let body : Bytes := if input.head? = some 0x2D then input.tail else input
  match body with
  | [] => none
  | d :: rest =>
    if d = 0x30 then (parseFraction rest).map fun p => (sign ++ d :: p.1, p.2)
    else if isDigit d then
      (parseFraction (takeDigits rest).2).map
        fun p => (sign ++ d :: (takeDigits rest).1 ++ p.1, p.2)
    else none

/-- A parsed JSON value; numbers keep their text, strings are unquoted. -/
inductive JValue where
  | null
  | bool (b : Bool)
  | number (lit : Bytes)
  | string (s : Bytes)
  | array (items : List JValue)
  | object (members : List (Bytes × JValue))

/-- The constant `maxNestingDepth` of the scanner. -/
def maxNestingDepth : Nat := 10000

/-- The input after a literal name (`true`, `false`, `null`), if the input
starts with it. -/
def expectLit : Bytes → Bytes → Option Bytes
  | [], input => some input
  | _ :: _, [] => none
  | n :: name, c :: input => if c = n then expectLit name input else none

mutual

/-- The next JSON value of the input, after optional whitespace, and the
input that follows it: what `readValue` delimits and `decodeState` then walks.
The first argument bounds the number of nested calls, the second is the
number of arrays and objects that are open. -/
def parseValue : Nat → Nat → Bytes → Option (JValue × Bytes)
  | 0, _, _ => none
  | fuel + 1, depth, input =>
    match skipSpace input with
    | [] => none
    | c :: rest =>
      if c = 0x7B then
        if maxNestingDepth ≤ depth then none
        else
          match skipSpace rest with
          | [] => none
          | d :: rest1 =>
            if d = 0x7D then some (JValue.object [], rest1)
            else (parseMembers fuel (depth + 1) (d :: rest1)).map
              fun p => (JValue.object p.1, p.2)
      else if c = 0x5B then
        if maxNestingDepth ≤ depth then none
        else
          match skipSpace rest with
          | [] => none
          | d :: rest1 =>
            if d = 0x5D then some (JValue.array [], rest1)
            else (parseElements fuel (depth + 1) (d :: rest1)).map
              fun p => (JValue.array p.1, p.2)
      else if c = 0x22 then (unquoteAux 0 rest).map fun p => (JValue.string p.1, p.2)
      else if c = 0x2D ∨ isDigit c = true then
        (parseNumber (c :: rest)).map fun p => (JValue.number p.1, p.2)
      else if c = 0x74 then
        (expectLit (ascii "true") (c :: rest)).map fun r => (JValue.bool true, r)
      else if c = 0x66 then
        (expectLit (ascii "false") (c :: rest)).map fun r => (JValue.bool false, r)
      else if c = 0x6E then
        (expectLit (ascii "null") (c :: rest)).map fun r => (JValue.null, r)
      else none

/-- The members of an object from the opening quote of a key up to and
including the closing brace. -/
def parseMembers : Nat → Nat → Bytes → Option (List (Bytes × JValue) × Bytes)
  | 0, _, _ => none
  | fuel + 1, depth, input =>
    match input with
    | [] => none
    | q :: rest =>
      if q = 0x22 then
        match unquoteAux 0 rest with
        | none => none
        | some (key, rest1) =>
          match skipSpace rest1 with
          | [] => none
          | colon :: rest2 =>
            if colon = 0x3A then
              match parseValue fuel depth rest2 with
              | none => none
              | some (v, rest3) =>
                match skipSpace rest3 with
                | [] => none
                | e :: rest4 =>
                  if e = 0x2C then
                    (parseMembers fuel depth (skipSpace rest4)).map
                      fun p => ((key, v) :: p.1, p.2)
                  else if e = 0x7D then some ([(key, v)], rest4)
                  else none
            else none
      else none

/-- The elements of an array from the first byte of an element up to and
including the closing bracket. -/
def parseElements : Nat → Nat → Bytes → Option (List JValue × Bytes)
  | 0, _, _ => none
  | fuel + 1, depth, input =>
    match parseValue fuel depth input with
    | none => none
    | some (v, rest) =>
      match skipSpace rest with
      | [] => none
      | e :: rest1 =>
        if e = 0x2C then (parseElements fuel depth rest1).map fun p => (v :: p.1, p.2)
        else if e = 0x5D then some ([v], rest1)
        else none

end

/-- An error of package `encoding/json`; its text is abbreviated to the kind
of the error. -/
def jsonError (kind : String) : GoError := GoError.fundamental (ascii kind)

/-- The method `Decoder.Decode` on a decoder whose unread input is `buf`:
read the next value, then store it in the destination with `unmarshal` (the
behaviour of `decodeState.unmarshal` at the type of the destination). The
result is the destination, the error, and the input left unread. A value
that is not complete is an error. The parser gets twice the length of the
input plus one as fuel, which is always enough. -/
def decoderDecode {α : Type} (unmarshal : JValue → α → α × Option GoError) (dst : α)
    (buf : Bytes) : α × Option GoError × Bytes :=
  match parseValue (2 * buf.length + 1) 0 buf with
  | none => (dst, some (jsonError "json: syntax error or unexpected end of input"), buf)
  | some (v, rest) => ((unmarshal v dst).1, (unmarshal v dst).2, rest)

/-- The method `Decoder.More`: the next byte after whitespace exists and is
neither `]` nor the closing brace. -/
def decoderMore (buf : Bytes) : Bool :=
  match skipSpace buf with
  | [] => false
  | c :: _ => c != 0x5D && c != 0x7D

/-- Whether a byte is an ASCII letter. -/
def isLetter (c : Nat) : Bool := (0x41 ≤ c && c ≤ 0x5A) || (0x61 ≤ c && c ≤ 0x7A)

/-- The upper-case form of an ASCII letter (`b & caseMask`). -/
def upperByte (c : Nat) : Nat := if 0x61 ≤ c ∧ c ≤ 0x7A then c - 0x20 else c

/-- The case-insensitive match of a key `t` against a field name `s` made of
ASCII letters (`equalFoldRight`): letters match in either case, and the long
s U+017F and the Kelvin sign U+212A in the key match `s` and `k`. -/
def equalFold : Bytes → Bytes → Bool
  | [], t => t.isEmpty
  | _ :: _, [] => false
  | sb :: s, tb :: t =>
    if tb < 0x80 then
      if sb = tb then equalFold s t
      else if isLetter sb = true ∧ (tb = upperByte sb ∨ tb = upperByte sb + 0x20) then
        equalFold s t
      else false
    else if (sb = 0x73 ∨ sb = 0x53) ∧ decodeRune (tb :: t) = (0x17F, 2) then
      equalFold s (t.drop 1)
    else if (sb = 0x6B ∨ sb = 0x4B) ∧ decodeRune (tb :: t) = (0x212A, 3) then
      equalFold s (t.drop 2)
    else false

/-- The value of a non-empty run of decimal digits; `none` if the input is
empty or has another byte. -/
def digitsValue (ds : Bytes) : Option Nat :=
  if ds = [] ∨ ds.any (fun c => !isDigit c) then none
  else some (ds.foldl (fun acc d => acc * 10 + (d - 0x30)) 0)

/-- The function `strconv.ParseInt(s, 10, 64)`: an optional sign and decimal
digits, within the range of `int64`. -/
def parseInt64 (lit : Bytes) : Option Int :=
  let neg : Bool := lit.head? = some 0x2D
  let ds : Bytes := if lit.head? = some 0x2D ∨ lit.head? = some 0x2B then lit.tail else lit
  match digitsValue ds with
  | none => none
  | some n =>
    if neg then (if n ≤ 2 ^ 63 then some (-(n : Int)) else none)
    else if n < 2 ^ 63 then some (n : Int) else none

/-- The function `decodeState.saveError`: the first error is kept. -/
def saveError (saved : Option GoError) (err : GoError) : Option GoError :=
  match saved with
  | some e => some e
  | none => some err

/-- A value stored into the field `Msg` (a Go string): a JSON string is
stored, `null` changes nothing, any other value is an error that is saved
while decoding goes on. -/
def storeMsg (st : JSONErrorStruct × Option GoError) :
    JValue → JSONErrorStruct × Option GoError
  | JValue.string s => ({ st.1 with Msg := s }, st.2)
  | JValue.null => st
  | JValue.bool _ => (st.1, saveError st.2 (jsonError "json: cannot unmarshal bool"))
  | JValue.number _ => (st.1, saveError st.2 (jsonError "json: cannot unmarshal number"))
  | JValue.array _ => (st.1, saveError st.2 (jsonError "json: cannot unmarshal array"))
  | JValue.object _ => (st.1, saveError st.2 (jsonError "json: cannot unmarshal object"))

/-- A value stored into the field `Code` (a Go int): a number that
`ParseInt` accepts is stored, `null` changes nothing, any other value is an
error that is saved while decoding goes on. -/
def storeCode (st : JSONErrorStruct × Option GoError) :
    JValue → JSONErrorStruct × Option GoError
  | JValue.number lit =>
    match parseInt64 lit with
    | some n => ({ st.1 with Code := n }, st.2)
    | none => (st.1, saveError st.2 (jsonError "json: cannot unmarshal number"))
  | JValue.null => st
  | JValue.bool _ => (st.1, saveError st.2 (jsonError "json: cannot unmarshal bool"))
  | JValue.string _ => (st.1, saveError st.2 (jsonError "json: cannot unmarshal string"))
  | JValue.array _ => (st.1, saveError st.2 (jsonError "json: cannot unmarshal array"))
  | JValue.object _ => (st.1, saveError st.2 (jsonError "json: cannot unmarshal object"))

/-- One member of an object stored into a `JSONErrorStruct`, with unknown
fields disallowed: the key selects the field `msg` or `code` (case
insensitively); a key that matches neither is an error. -/
def storeField (key : Bytes) (v : JValue) (st : JSONErrorStruct × Option GoError) :
    JSONErrorStruct × Option GoError :=
  if equalFold (ascii "msg") key then storeMsg st v
  else if equalFold (ascii "code") key then storeCode st v
  else (st.1, saveError st.2 (jsonError "json: unknown field"))

/-- The method `decodeState.unmarshal` with a `*JSONErrorStruct` as the
destination and `DisallowUnknownFields` set: an object is stored member by
member, `null` changes nothing, any other value is an error. -/
def unmarshalJSONErrorStruct (dst : JSONErrorStruct) :
    JValue → JSONErrorStruct × Option GoError
  | JValue.object members => members.foldl (fun st kv => storeField kv.1 kv.2 st) (dst, none)
  | JValue.null => (dst, none)
  | JValue.bool _ => (dst, some (jsonError "json: cannot unmarshal bool"))
  | JValue.number _ => (dst, some (jsonError "json: cannot unmarshal number"))
  | JValue.string _ => (dst, some (jsonError "json: cannot unmarshal string"))
  | JValue.array _ => (dst, some (jsonError "json: cannot unmarshal array"))

/-- The body check of the test helper `runRequestHandler`: decode the body
into a zero `JSONErrorStruct` with unknown fields disallowed, require that
`Decode` returns no error and that `More` is false; the result is the
decoded envelope. -/
def decodeErrorBody (body : Bytes) : Option JSONErrorStruct :=
  let r := decoderDecode (fun v dst => unmarshalJSONErrorStruct dst v) { Msg := [], Code := 0 } body
  if r.2.1.isSome then none
  else if decoderMore r.2.2 then none
  else some r.1

/-- The constant `maxBodyLen`. -/
def maxBodyLen : Nat := 1024 * 1024

/-- The function `parseJSONBody`: `body` is `r.Body` (`none` for nil),
`unmarshal` and `obj` stand for the destination `obj`; the result is the
destination after decoding and the error returned. `io.LimitReader` lets the
decoder see the first `maxBodyLen` bytes only. -/
def parseJSONBody {α : Type} (body : Option Bytes)
    (unmarshal : JValue → α → α × Option GoError) (obj : α) : α × Option GoError :=
  match body with
  | none => (obj, some (httpStatusString 400 (ascii "Non-empty request body is expected.")))
  | some b =>
    let r := decoderDecode unmarshal obj (b.take maxBodyLen)
    if r.2.1.isSome then
      (r.1, some (httpStatusError 400 (errorsWrap r.2.1 (ascii "reading/parsing JSON HTTP Body"))))
    else if decoderMore r.2.2 then
      (r.1, some (httpStatusString 400
        (ascii "HTTP Body contains extra data after JSON object")))
    else (r.1, none)

/-- The value of a run of decimal digits. -/
def digitsNat (ds : Bytes) : Nat := ds.foldl (fun acc d => acc * 10 + (d - 0x30)) 0

/-- The exponent part of a number literal, from the `e` on: its value, 0 when
there is none. -/
def exponentValue : Bytes → Int
  | e :: s :: rest =>
    if e = 0x65 ∨ e = 0x45 then
      if s = 0x2D then -((digitsNat (takeDigits rest).1 : Nat) : Int)
      else if s = 0x2B then ((digitsNat (takeDigits rest).1 : Nat) : Int)
      else ((digitsNat (takeDigits (s :: rest)).1 : Nat) : Int)
    else 0
  | _ => 0

/-- A number literal as a mantissa and a power of ten: its absolute value is
the mantissa times ten to the exponent. -/
def numberParts (lit : Bytes) : Nat × Int :=
  let body : Bytes := if lit.head? = some 0x2D then lit.tail else lit
  let ip := takeDigits body
  let fp : Bytes × Bytes := if ip.2.head? = some 0x2E then takeDigits ip.2.tail else ([], ip.2)
  (digitsNat (ip.1 ++ fp.1), exponentValue fp.2 - (fp.1.length : Int))

/-- Whether `strconv.ParseFloat(lit, 64)` reports a range error: the value
rounds to infinity, which is so from the midpoint between the largest
`float64` and `2^1024` on. -/
def overflowsFloat64 (lit : Bytes) : Bool :=
  if 0 ≤ (numberParts lit).2 then
    decide (2 ^ 1024 - 2 ^ 970 ≤ (numberParts lit).1 * 10 ^ (numberParts lit).2.toNat)
  else
    decide ((2 ^ 1024 - 2 ^ 970) * 10 ^ (-(numberParts lit).2).toNat ≤ (numberParts lit).1)

mutual

/-- Whether every number of a value fits `float64`. -/
def numbersFit : JValue → Bool
  | JValue.number lit => !overflowsFloat64 lit
  | JValue.array items => itemsFit items
  | JValue.object members => membersFit members
  | JValue.null => true
  | JValue.bool _ => true
  | JValue.string _ => true

/-- Whether every number in a list of values fits `float64`. -/
def itemsFit : List JValue → Bool
  | [] => true
  | v :: vs => numbersFit v && itemsFit vs

/-- Whether every number in the members of an object fits `float64`. -/
def membersFit : List (Bytes × JValue) → Bool
  | [] => true
  | kv :: ms => numbersFit kv.2 && membersFit ms

end

/-- The destination `obj` of type `*interface{}`: it takes every JSON value,
except that each number is converted with `strconv.ParseFloat`, and a number
that does not fit `float64` is an error. The value stored is kept as parsed. -/
def unmarshalAny (v : JValue) (_ : Option JValue) : Option JValue × Option GoError :=
  if numbersFit v then (some v, none)
  else (some v, some (jsonError "json: cannot unmarshal number into Go value of type float64"))

/-- A body of `maxBodyLen + 1` bytes: the value `{}`, then spaces up to the
limit of the reader, then the byte `x`. -/
def oversizeBody : Bytes :=
  0x7B :: 0x7D :: (List.replicate (maxBodyLen - 2) 0x20 ++ [0x78])

/-! ## Properties of the response translation -/

theorem isBadCode_iff (code : Int) : isBadCode code = true ↔ ¬ (200 ≤ code ∧ code ≤ 299) := by
  have h := Int.tdiv_add_tmod code 100
  have h1 := Int.tmod_lt_of_pos code (show (0 : Int) < 100 by decide)
  by_cases hc : 0 ≤ code
  · have h2 := Int.tmod_nonneg 100 hc
    simp only [isBadCode, bne_iff_ne, ne_eq]
    constructor
    · intro hne hr; apply hne; omega
    · intro hr he; apply hr; omega
  · have h3 : Int.tdiv code 100 ≤ 0 := by
      have h4 : Int.tdiv code 100 = -(Int.tdiv (-code) 100) := by
        rw [Int.neg_tdiv, neg_neg]
      have h5 : 0 ≤ Int.tdiv (-code) 100 := Int.tdiv_nonneg (by omega) (by decide)
      omega
    simp only [isBadCode, bne_iff_ne, ne_eq]
    constructor
    · intro _ hr; omega
    · intro _ he; omega

theorem sendResponse_eq_some (data : Option Bytes) (code : Int) (resp : Response) :
    sendResponse data code = some resp ↔
      (100 ≤ code ∧ code ≤ 999) ∧ resp = writeResponse data code := by
  unfold sendResponse checkWriteHeaderCode
  by_cases h : 100 ≤ code ∧ code ≤ 999
  · simp only [h.1, h.2, decide_True, Bool.and_self, if_true, Option.some.injEq, and_self,
      true_and]
    exact eq_comm
  · have hf : (decide (100 ≤ code) && decide (code ≤ 999)) = false := by
      simp only [Bool.and_eq_false_iff, decide_eq_false_iff_not]
      by_cases h1 : 100 ≤ code
      · exact Or.inr (fun h2 => h ⟨h1, h2⟩)
      · exact Or.inl h1
    simp only [hf, Bool.false_eq_true, if_false, h, false_and, reduceCtorEq]

theorem sendResponse_valid (data : Option Bytes) (code : Int) (h1 : 100 ≤ code)
    (h2 : code ≤ 999) : sendResponse data code = some (writeResponse data code) :=
  (sendResponse_eq_some data code _).mpr ⟨⟨h1, h2⟩, rfl⟩

theorem sendResponse_invalid (data : Option Bytes) (code : Int) (h : code < 100 ∨ 999 < code) :
    sendResponse data code = none := by
  cases hs : sendResponse data code with
  | none => rfl
  | some resp =>
    have := ((sendResponse_eq_some data code resp).mp hs).1
    omega

/-- The response that `ServeHTTP` computes for an error result. -/
theorem ServeHTTP_some (data : Option Bytes) (e : GoError) :
    dataHandler.ServeHTTP (data, some e) =
      (let code : Int := (e.Cause.HTTPStatusCode).getD 500
       if isBadCode code then
         sendResponse (some (toJSON { Code := code, Msg := e.Cause.Error })) code
       else sendResponse (if code = 204 then none else data) code) := by
  simp only [dataHandler.ServeHTTP, errorsCause, Option.map_some', Option.some_bind]
  cases h : e.Cause.HTTPStatusCode <;> simp

theorem ServeHTTP_none (data : Option Bytes) :
    dataHandler.ServeHTTP (data, none) = some (writeResponse data 200) := by
  have h : dataHandler.ServeHTTP (data, none) = sendResponse data 200 := rfl
  rw [h, sendResponse_valid data 200 (by decide) (by decide)]

theorem ServeHTTP_some_bad (data : Option Bytes) (e : GoError)
    (hb : isBadCode ((e.Cause.HTTPStatusCode).getD 500) = true) :
    dataHandler.ServeHTTP (data, some e) =
      sendResponse (some (toJSON { Code := (e.Cause.HTTPStatusCode).getD 500,
                                   Msg := e.Cause.Error }))
        ((e.Cause.HTTPStatusCode).getD 500) := by
  rw [ServeHTTP_some]
  simp only [hb, if_true]

theorem ServeHTTP_some_ok (data : Option Bytes) (e : GoError)
    (hb : isBadCode ((e.Cause.HTTPStatusCode).getD 500) = false) :
    dataHandler.ServeHTTP (data, some e) =
      sendResponse (if (e.Cause.HTTPStatusCode).getD 500 = 204 then none else data)
        ((e.Cause.HTTPStatusCode).getD 500) := by
  rw [ServeHTTP_some]
  simp only [hb, Bool.false_eq_true, if_false]

/-- The response to an error result depends on the error only through the
code and the text of its cause. -/
theorem ServeHTTP_some_status (data : Option Bytes) (e : GoError) :
    (∀ resp, dataHandler.ServeHTTP (data, some e) = some resp →
      resp.status = (e.Cause.HTTPStatusCode).getD 500) ∧
    (100 ≤ (e.Cause.HTTPStatusCode).getD 500 → (e.Cause.HTTPStatusCode).getD 500 ≤ 999 →
      ∃ resp, dataHandler.ServeHTTP (data, some e) = some resp) ∧
    ((e.Cause.HTTPStatusCode).getD 500 < 100 ∨ 999 < (e.Cause.HTTPStatusCode).getD 500 →
      dataHandler.ServeHTTP (data, some e) = none) := by
  cases hb : isBadCode ((e.Cause.HTTPStatusCode).getD 500) with
  | true =>
    rw [ServeHTTP_some_bad data e hb]
    refine ⟨?_, ?_, ?_⟩
    · intro resp h
      rw [((sendResponse_eq_some _ _ _).mp h).2]
      rfl
    · intro h1 h2
      exact ⟨_, sendResponse_valid _ _ h1 h2⟩
    · intro h
      exact sendResponse_invalid _ _ h
  | false =>
    rw [ServeHTTP_some_ok data e hb]
    refine ⟨?_, ?_, ?_⟩
    · intro resp h
      rw [((sendResponse_eq_some _ _ _).mp h).2]
      rfl
    · intro h1 h2
      exact ⟨_, sendResponse_valid _ _ h1 h2⟩
    · intro h
      exact sendResponse_invalid _ _ h

/-- C1, as stated, fails: the cause of the error `httpStatusString(0, "zero")`
is status-carrying with `HTTPStatusCode()` 0, and for it the wrapper writes no
status at all, because `WriteHeader(0)` panics. -/
theorem ServeHTTP_status_counterexample :
    (httpStatusString 0 (ascii "zero")).Cause.HTTPStatusCode = some 0 ∧
    dataHandler.ServeHTTP (none, some (httpStatusString 0 (ascii "zero"))) = none := by
  decide

/-- C1, amended: for every handler result `(data, err)`, when `err` is absent
the wrapper writes status 200; when the cause of `err` is a status-carrying
error whose `HTTPStatusCode()` is between 100 and 999 it writes that value;
when that value is outside 100..999 `WriteHeader` panics and nothing is
written; for every other error it writes 500. The cause is what is left when
the wrappers of `pkg/errors` are taken off: a wrapped error gets the response
of the error inside, a `statusErrorImpl` is its own cause and carries its
code, a plain error is its own cause and carries none. -/
theorem ServeHTTP_status (data : Option Bytes) :
    (∃ resp, dataHandler.ServeHTTP (data, none) = some resp ∧ resp.status = 200) ∧
    (∀ e c, e.Cause.HTTPStatusCode = some c → 100 ≤ c → c ≤ 999 →
      ∃ resp, dataHandler.ServeHTTP (data, some e) = some resp ∧ resp.status = c) ∧
    (∀ e c, e.Cause.HTTPStatusCode = some c → (c < 100 ∨ 999 < c) →
      dataHandler.ServeHTTP (data, some e) = none) ∧
    (∀ e, e.Cause.HTTPStatusCode = none →
      ∃ resp, dataHandler.ServeHTTP (data, some e) = some resp ∧ resp.status = 500) ∧
    (∀ e msg, dataHandler.ServeHTTP (data, some (GoError.withMessage e msg)) =
      dataHandler.ServeHTTP (data, some e)) ∧
    (∀ e, dataHandler.ServeHTTP (data, some (GoError.withStack e)) =
      dataHandler.ServeHTTP (data, some e)) ∧
    (∀ code inner, 100 ≤ code → code ≤ 999 →
      ∃ resp, dataHandler.ServeHTTP (data, some (GoError.statusErrorImpl code inner)) =
        some resp ∧ resp.status = code) ∧
    (∀ msg, ∃ resp, dataHandler.ServeHTTP (data, some (GoError.fundamental msg)) = some resp ∧
      resp.status = 500) := by
  have hstatus : ∀ e c, e.Cause.HTTPStatusCode = some c → 100 ≤ c → c ≤ 999 →
      ∃ resp, dataHandler.ServeHTTP (data, some e) = some resp ∧ resp.status = c := by
    intro e c hc h1 h2
    obtain ⟨hs, hex, _⟩ := ServeHTTP_some_status data e
    rw [hc] at hs hex
    obtain ⟨resp, hr⟩ := hex h1 h2
    exact ⟨resp, hr, hs resp hr⟩
  have hother : ∀ e, e.Cause.HTTPStatusCode = none →
      ∃ resp, dataHandler.ServeHTTP (data, some e) = some resp ∧ resp.status = 500 := by
    intro e hc
    obtain ⟨hs, hex, _⟩ := ServeHTTP_some_status data e
    rw [hc] at hs hex
    obtain ⟨resp, hr⟩ := hex (by decide) (by decide)
    exact ⟨resp, hr, hs resp hr⟩
  refine ⟨⟨_, ServeHTTP_none data, rfl⟩, hstatus, ?_, hother, ?_, ?_, ?_, ?_⟩
  · intro e c hc hout
    obtain ⟨_, _, hno⟩ := ServeHTTP_some_status data e
    rw [hc] at hno
    exact hno hout
  · intro e msg
    rw [ServeHTTP_some, ServeHTTP_some]
    rfl
  · intro e
    rw [ServeHTTP_some, ServeHTTP_some]
    rfl
  · intro code inner h1 h2
    exact hstatus (GoError.statusErrorImpl code inner) code rfl h1 h2
  · intro msg
    exact hother (GoError.fundamental msg) rfl

/-- The statuses of three results: no error gives 200; the status error
`httpStatus(404)` wrapped by `errors.Wrap` gives its code 404; a plain error
wrapped by `errors.Wrap` gives 500. -/
theorem ServeHTTP_status_witness :
    (dataHandler.ServeHTTP (none, none)).map Response.status = some 200 ∧
    (dataHandler.ServeHTTP (none, errorsWrap (some (httpStatus 404)) (ascii "ctx"))).map
      Response.status = some 404 ∧
    (dataHandler.ServeHTTP (none, some wrappedBoom)).map Response.status = some 500 ∧
    (∃ resp, dataHandler.ServeHTTP (none,
        some (GoError.withStack (GoError.withMessage (httpStatus 404) (ascii "ctx")))) =
      some resp ∧ resp.status = 404) :=
  ⟨by decide, by decide, by decide,
    (ServeHTTP_status none).2.1
      (GoError.withStack (GoError.withMessage (httpStatus 404) (ascii "ctx"))) 404 rfl
      (by decide) (by decide)⟩

/-- C2, as stated, fails: for the handler error `errors.Wrap(errors.New("boom"),
"ctx")` the status written is 500, the error's description is `ctx: boom`, and
the body is not the envelope with that description (it carries `boom`, the
description of the cause). -/
theorem ServeHTTP_error_body_counterexample :
    (dataHandler.ServeHTTP (none, some wrappedBoom)).map Response.status = some 500 ∧
    wrappedBoom.Error = ascii "ctx: boom" ∧
    (dataHandler.ServeHTTP (none, some wrappedBoom)).map Response.body ≠
      some (toJSON { Msg := wrappedBoom.Error, Code := 500 }) ∧
    (dataHandler.ServeHTTP (none, some wrappedBoom)).map Response.body =
      some (toJSON { Msg := ascii "boom", Code := 500 }) := by
  decide

/-- C2, amended: for every handler result whose resulting status is not in
the 2xx range, the wrapper discards the payload and writes as body the JSON
serialization of the envelope whose msg is the description of the cause of
the error, `errors.Cause(err).Error()`, and whose code is the status written;
the content type is set. -/
theorem ServeHTTP_error_body (data : Option Bytes) (err : Option GoError) (resp : Response)
    (h : dataHandler.ServeHTTP (data, err) = some resp)
    (hbad : ¬ (200 ≤ resp.status ∧ resp.status ≤ 299)) :
    ∃ e, err = some e ∧
      resp.body = toJSON { Msg := e.Cause.Error, Code := resp.status } ∧
      resp.contentType = some (ascii "application/json") := by
  cases err with
  | none =>
    rw [ServeHTTP_none] at h
    cases h
    exact absurd (show (200 : Int) ≤ 200 ∧ (200 : Int) ≤ 299 by decide) hbad
  | some e =>
    refine ⟨e, rfl, ?_⟩
    cases hb : isBadCode ((e.Cause.HTTPStatusCode).getD 500) with
    | true =>
      rw [ServeHTTP_some_bad data e hb] at h
      rw [((sendResponse_eq_some _ _ _).mp h).2]
      exact ⟨rfl, rfl⟩
    | false =>
      rw [ServeHTTP_some_ok data e hb] at h
      rw [((sendResponse_eq_some _ _ _).mp h).2] at hbad
      have h2 : ¬ (isBadCode ((e.Cause.HTTPStatusCode).getD 500) = true) := by simp [hb]
      exact absurd (not_not.mp ((isBadCode_iff _).not.mp h2)) hbad

/-- The handler of `/error400` returns `(nil, httpStatus(400))`, whose text is
`Bad Request`: the body is the envelope with code 400 (the case of
`TestError400`). A payload, had the handler returned one, would be dropped. -/
theorem ServeHTTP_error_body_witness :
    dataHandler.ServeHTTP (some (ascii "ignored"), some (httpStatus 400)) =
      some ⟨some (ascii "application/json"), 400,
        ascii "\x7b\"msg\":\"Bad Request\",\"code\":400\x7d"⟩ ∧
    ¬ (200 ≤ (400 : Int) ∧ (400 : Int) ≤ 299) ∧
    ∃ e, some (httpStatus 400) = some e ∧
      ascii "\x7b\"msg\":\"Bad Request\",\"code\":400\x7d" =
        toJSON { Msg := e.Cause.Error, Code := 400 } ∧
      some (ascii "application/json") = some (ascii "application/json") :=
  ⟨by decide, by decide,
    ServeHTTP_error_body (some (ascii "ignored")) (some (httpStatus 400))
      ⟨some (ascii "application/json"), 400,
        ascii "\x7b\"msg\":\"Bad Request\",\"code\":400\x7d"⟩
      (by decide) (by decide)⟩

/-- C3, as stated, fails: for the handler result with payload and error both
absent the status written is 200, not 204. -/
theorem ServeHTTP_nil_nil_counterexample :
    (dataHandler.ServeHTTP (none, none)).map Response.status = some 200 ∧
    (dataHandler.ServeHTTP (none, none)).map Response.status ≠ some 204 := by
  decide

/-- C3, amended: for every handler result in which both the payload and the
error are absent the wrapper writes status 200 and an empty body, with no
content type; the same holds for a JSON handler that returns a nil object and
no error. -/
theorem ServeHTTP_nil_nil :
    dataHandler.ServeHTTP (none, none) = some ⟨none, 200, []⟩ ∧
    ∀ (α : Type) (marshal : α → Except GoError Bytes),
      dataHandler.ServeHTTP (jsonHandler.serve marshal (none, none)) = some ⟨none, 200, []⟩ := by
  refine ⟨by decide, ?_⟩
  intro α marshal
  show dataHandler.ServeHTTP (none, none) = _
  decide

/-- C4: for every handler result whose resulting status is 2xx and not 204,
the body written is the payload of the handler byte for byte (empty when the
payload is absent), and the content type is `application/json` whenever the
body is not empty. -/
theorem ServeHTTP_success_body (data : Option Bytes) (err : Option GoError) (resp : Response)
    (h : dataHandler.ServeHTTP (data, err) = some resp)
    (hok : 200 ≤ resp.status ∧ resp.status ≤ 299) (h204 : resp.status ≠ 204) :
    resp.body = data.getD [] ∧
      (resp.body ≠ [] → resp.contentType = some (ascii "application/json")) := by
  have key : resp = writeResponse data resp.status := by
    cases err with
    | none =>
      rw [ServeHTTP_none] at h
      cases h
      rfl
    | some e =>
      cases hb : isBadCode ((e.Cause.HTTPStatusCode).getD 500) with
      | true =>
        rw [ServeHTTP_some_bad data e hb] at h
        rw [((sendResponse_eq_some _ _ _).mp h).2] at hok
        exact absurd hok ((isBadCode_iff _).mp hb)
      | false =>
        rw [ServeHTTP_some_ok data e hb] at h
        have hr := ((sendResponse_eq_some _ _ _).mp h).2
        have h4 : ¬ ((e.Cause.HTTPStatusCode).getD 500 = 204) := by
          intro hx
          apply h204
          rw [hr]
          exact hx
        rw [if_neg h4] at hr
        rw [hr]
        rfl
  rw [key]
  refine ⟨rfl, ?_⟩
  cases data with
  | none => intro hne; exact absurd rfl hne
  | some d => intro _; rfl

/-- The handler of `/data` returns `("123", nil)`: status 200 and body `123`
(the case of `TestData`). -/
theorem ServeHTTP_success_body_witness :
    dataHandler.ServeHTTP handleData =
      some ⟨some (ascii "application/json"), 200, ascii "123"⟩ ∧
    ((200 : Int) ≤ 200 ∧ (200 : Int) ≤ 299) ∧ (200 : Int) ≠ 204 ∧
    ascii "123" = (some (ascii "123")).getD [] ∧
    (ascii "123" ≠ [] → some (ascii "application/json") = some (ascii "application/json")) :=
  ⟨by decide, by decide, by decide,
    ServeHTTP_success_body (some (ascii "123")) none
      ⟨some (ascii "application/json"), 200, ascii "123"⟩ (by decide) (by decide) (by decide)⟩

/-! ## Formatting of the error texts -/


theorem doPrintf_no_percent : ∀ (s : Bytes) (fuel : Nat), s.length < fuel → 0x25 ∉ s →
    doPrintf fuel s = s := by
  intro s
  induction s with
  | nil =>
    intro fuel hf _
    cases fuel with
    | zero => exact absurd hf (Nat.not_lt_zero _)
    | succ f => rfl
  | cons c t ih =>
    intro fuel hf hp
    cases fuel with
    | zero => exact absurd hf (Nat.not_lt_zero _)
    | succ f =>
      have hc : ¬ c = 0x25 := fun hx => hp (hx ▸ List.mem_cons_self c t)
      have ht : 0x25 ∉ t := fun hx => hp (List.mem_cons_of_mem c hx)
      rw [doPrintf, if_neg hc, ih f (Nat.lt_of_succ_lt_succ hf) ht]

/-- A format without `%` is printed as it is. -/
theorem fmtSprintf_no_percent (s : Bytes) (hp : 0x25 ∉ s) : fmtSprintf s = s :=
  doPrintf_no_percent s (s.length + 1) (Nat.lt_succ_self _) hp

/-- The texts of the errors of `parseJSONBody`, and of `httpStatus(400)`. -/
theorem parseJSONBody_error_texts :
    (httpStatusString 400 (ascii "Non-empty request body is expected.")).Error =
      ascii "Non-empty request body is expected." ∧
    (httpStatusString 400 (ascii "HTTP Body contains extra data after JSON object")).Error =
      ascii "HTTP Body contains extra data after JSON object" ∧
    (httpStatus 400).Error = ascii "Bad Request" := by
  decide

/-! ## Properties of the hub -/

theorem Hub.mem_delete (h : Hub) (c d : ClientRef) :
    d ∈ (h.delete c).clients ↔ d ≠ c ∧ d ∈ h.clients :=
  h.nodup.mem_erase_iff

/-- One visit of the broadcast loop, when the channel of a matching client is
open: it does not panic, and changes the visited client only. -/
theorem Hub.deliver_spec (hmsg : hubMsg) (h : Hub) (c : ClientRef)
    (hopen : hmsg.userID = h.userID c → (h.send c).closed = false) :
    ∃ h1, Hub.deliver hmsg h c = some h1 ∧ h1.userID = h.userID ∧
      (∀ d, h1.send d = if d = c then deliverChan hmsg (h.userID c) (h.send c) else h.send d) ∧
      (∀ d, d ∈ h1.clients ↔ d ∈ h.clients ∧
        ¬ (d = c ∧ hmsg.userID = h.userID c ∧ sendCap ≤ (h.send c).queue.length)) := by
  by_cases hu : hmsg.userID = h.userID c
  · have ho := hopen hu
    by_cases hroom : (h.send c).queue.length < sendCap
    · refine ⟨h.setSend c { h.send c with queue := (h.send c).queue ++ [hmsg.msg] },
        ?_, rfl, ?_, ?_⟩
      · unfold Hub.deliver
        rw [if_neg (not_not.mpr hu), if_neg (by rw [ho]; exact Bool.false_ne_true),
          if_pos hroom]
      · intro d
        simp only [Hub.setSend, deliverChan, hu, ne_eq, not_true_eq_false, if_false, hroom,
          if_true]
      · intro d
        show d ∈ h.clients ↔ _
        constructor
        · intro hd
          exact ⟨hd, fun hx => absurd hroom (Nat.not_lt.mpr hx.2.2)⟩
        · intro hd; exact hd.1
    · refine ⟨((h.setSend c { h.send c with closed := true }).delete c), ?_, rfl, ?_, ?_⟩
      · unfold Hub.deliver
        rw [if_neg (not_not.mpr hu), if_neg (by rw [ho]; exact Bool.false_ne_true),
          if_neg hroom]
        simp only [closeChan, ho, Bool.false_eq_true, if_false]
      · intro d
        simp only [Hub.setSend, Hub.delete, deliverChan, hu, ne_eq, not_true_eq_false, if_false,
          hroom]
      · intro d
        rw [Hub.mem_delete]
        show d ≠ c ∧ d ∈ h.clients ↔ _
        constructor
        · intro hd
          exact ⟨hd.2, fun hx => hd.1 hx.1⟩
        · intro hd
          exact ⟨fun hx => hd.2 ⟨hx, hu, Nat.not_lt.mp hroom⟩, hd.1⟩
  · refine ⟨h, by simp only [Hub.deliver, ne_eq, hu, not_false_eq_true, if_true], rfl, ?_, ?_⟩
    · intro d
      by_cases hd : d = c
      · subst hd
        simp only [deliverChan, ne_eq, hu, not_false_eq_true, if_true]
      · simp only [hd, if_false]
    · intro d
      constructor
      · intro hd; exact ⟨hd, fun hx => hu hx.2.1⟩
      · intro hd; exact hd.1

/-- The broadcast loop over a duplicate-free list of clients whose matching
members have open channels: it does not panic, every listed client is
visited once, and nothing else changes. -/
theorem Hub.deliver_foldlM (hmsg : hubMsg) :
    ∀ (l : List ClientRef) (h : Hub), l.Nodup →
      (∀ c ∈ l, hmsg.userID = h.userID c → (h.send c).closed = false) →
      ∃ h1, l.foldlM (Hub.deliver hmsg) h = some h1 ∧ h1.userID = h.userID ∧
        (∀ d, h1.send d = if d ∈ l then deliverChan hmsg (h.userID d) (h.send d) else h.send d) ∧
        (∀ d, d ∈ h1.clients ↔ d ∈ h.clients ∧
          ¬ (d ∈ l ∧ hmsg.userID = h.userID d ∧ sendCap ≤ (h.send d).queue.length)) := by
  intro l
  induction l with
  | nil =>
    intro h _ _
    exact ⟨h, rfl, rfl, fun d => by simp, fun d => by simp⟩
  | cons a l ih =>
    intro h hnd hopen
    obtain ⟨hal, hl⟩ := List.nodup_cons.mp hnd
    obtain ⟨h1, e1, u1, s1, m1⟩ :=
      Hub.deliver_spec hmsg h a (hopen a (List.mem_cons_self a l))
    have hopen1 : ∀ c ∈ l, hmsg.userID = h1.userID c → (h1.send c).closed = false := by
      intro c hc hu
      have hca : c ≠ a := fun hx => hal (hx ▸ hc)
      rw [s1 c, if_neg hca]
      rw [u1] at hu
      exact hopen c (List.mem_cons_of_mem a hc) hu
    obtain ⟨h2, e2, u2, s2, m2⟩ := ih h1 hl hopen1
    refine ⟨h2, ?_, u2.trans u1, ?_, ?_⟩
    · rw [List.foldlM_cons, e1]
      exact e2
    · intro d
      rw [s2 d, u1, s1 d]
      by_cases hda : d = a
      · subst hda
        simp only [hal, if_false, if_true, List.mem_cons, true_or]
      · simp only [hda, if_false, List.mem_cons, false_or]
    · intro d
      rw [m2 d, m1 d, u1, s1 d]
      by_cases hda : d = a
      · subst hda
        simp only [hal, false_and, not_false_eq_true, and_true, true_and, List.mem_cons, true_or]
      · simp only [hda, false_and, not_false_eq_true, and_true, if_false, List.mem_cons, false_or]

/-- The broadcast case of `Run` on a hub whose registered clients of the
target user have open channels. -/
theorem Hub.broadcast_spec (h : Hub) (hmsg : hubMsg)
    (hopen : ∀ c ∈ h.clients, hmsg.userID = h.userID c → (h.send c).closed = false) :
    ∃ h1, h.broadcast hmsg = some h1 ∧ h1.userID = h.userID ∧
      (∀ d, h1.send d =
        if d ∈ h.clients then deliverChan hmsg (h.userID d) (h.send d) else h.send d) ∧
      (∀ d, d ∈ h1.clients ↔ d ∈ h.clients ∧
        ¬ (hmsg.userID = h.userID d ∧ sendCap ≤ (h.send d).queue.length)) := by
  obtain ⟨h1, e1, u1, s1, m1⟩ := Hub.deliver_foldlM hmsg h.clients h h.nodup hopen
  refine ⟨h1, e1, u1, s1, ?_⟩
  intro d
  rw [m1 d]
  constructor
  · intro hd; exact ⟨hd.1, fun hx => hd.2 ⟨hd.1, hx⟩⟩
  · intro hd; exact ⟨hd.1, fun hx => hd.2 hx.2⟩

/-- A broadcast keeps the channels of the registered clients open. -/
theorem Hub.broadcast_keeps_open (h : Hub) (hmsg : hubMsg)
    (hopen : ∀ c ∈ h.clients, (h.send c).closed = false) :
    ∃ h1, h.broadcast hmsg = some h1 ∧ h1.userID = h.userID ∧
      (∀ d, d ∉ h.clients → h1.send d = h.send d) ∧
      (∀ d, d ∈ h1.clients → d ∈ h.clients) ∧
      (∀ d ∈ h1.clients, (h1.send d).closed = false) := by
  obtain ⟨h1, e1, u1, s1, m1⟩ := Hub.broadcast_spec h hmsg (fun c hc _ => hopen c hc)
  refine ⟨h1, e1, u1, ?_, ?_, ?_⟩
  · intro d hd
    rw [s1 d, if_neg hd]
  · intro d hd
    exact ((m1 d).mp hd).1
  · intro d hd
    obtain ⟨hd1, hd2⟩ := (m1 d).mp hd
    rw [s1 d, if_pos hd1]
    unfold deliverChan
    by_cases hu : hmsg.userID = h.userID d
    · have hroom : (h.send d).queue.length < sendCap :=
        Nat.lt_of_not_le (fun hx => hd2 ⟨hu, hx⟩)
      rw [if_neg (not_not.mpr hu), if_pos hroom]
      exact hopen d hd1
    · rw [if_pos hu]
      exact hopen d hd1

/-- Broadcasts never reach a client that is not registered. -/
theorem Hub.broadcasts_skip_unregistered (c : ClientRef) :
    ∀ (later : List hubMsg) (h : Hub), (∀ d ∈ h.clients, (h.send d).closed = false) →
      c ∉ h.clients →
      ∃ hn, later.foldlM Hub.broadcast h = some hn ∧ hn.send c = h.send c ∧ c ∉ hn.clients := by
  intro later
  induction later with
  | nil =>
    intro h _ hc
    exact ⟨h, rfl, rfl, hc⟩
  | cons m later ih =>
    intro h hopen hc
    obtain ⟨h1, e1, _, s1, m1, o1⟩ := Hub.broadcast_keeps_open h m hopen
    obtain ⟨hn, en, sn, mn⟩ := ih h1 o1 (fun hx => hc (m1 c hx))
    refine ⟨hn, ?_, ?_, mn⟩
    · rw [List.foldlM_cons, e1]
      exact en
    · rw [sn, s1 c hc]

theorem ne_append_singleton {α : Type} (l : List α) (a : α) : l ≠ l ++ [a] := by
  intro hx
  have hl := congrArg List.length hx
  rw [List.length_append, List.length_singleton] at hl
  omega

/-- C5, as stated, fails: in `sampleHub` client 0 is registered with user 7
and its queue is full; processing the broadcast `(7, payload)` does not append
the payload to its queue (the queue keeps its 256 payloads, and the client is
closed and removed). -/
theorem Hub.broadcast_exactly_counterexample :
    0 ∈ sampleHub.clients ∧ sampleHub.userID 0 = 7 ∧
    (sampleHub.broadcast ⟨7, [1]⟩).map (fun h => (h.send 0).queue) =
      some (sampleHub.send 0).queue ∧
    (sampleHub.broadcast ⟨7, [1]⟩).map (fun h => (h.send 0).queue) ≠
      some ((sampleHub.send 0).queue ++ [[1]]) := by
  have hopen : ∀ c ∈ sampleHub.clients, (⟨7, [1]⟩ : hubMsg).userID = sampleHub.userID c →
      (sampleHub.send c).closed = false := by
    intro c _ _
    unfold sampleHub
    dsimp only
    split <;> rfl
  obtain ⟨h1, e1, _, s1, _⟩ := Hub.broadcast_spec sampleHub ⟨7, [1]⟩ hopen
  have hq : (h1.send 0).queue = (sampleHub.send 0).queue := by
    rw [s1 0, if_pos (by decide)]
    have hlen : ¬ ((sampleHub.send 0).queue.length < sendCap) := by
      show ¬ ((List.replicate 256 ([] : Bytes)).length < 256)
      rw [List.length_replicate]
      decide
    unfold deliverChan
    rw [if_neg (by decide), if_neg hlen]
  refine ⟨by decide, by decide, ?_, ?_⟩
  · rw [e1, Option.map_some', hq]
  · rw [e1, Option.map_some', hq]
    intro hx
    exact ne_append_singleton _ _ (Option.some.inj hx)

/-- C5, amended: in a hub whose registered clients of the target user have
open queues, processing a broadcast `(userID, payload)` appends the payload
to the queue of exactly the registered clients of that user whose queue is
not full, and keeps them registered; a registered client of that user whose
queue is full is closed and removed instead, which does not stop the others
from receiving the payload; the queue and the registration of every other
client are unchanged. -/
theorem Hub.broadcast_delivers (h : Hub) (hmsg : hubMsg)
    (hopen : ∀ c ∈ h.clients, h.userID c = hmsg.userID → (h.send c).closed = false) :
    ∃ h1, h.broadcast hmsg = some h1 ∧ h1.userID = h.userID ∧
      (∀ c, c ∈ h.clients → h.userID c = hmsg.userID → (h.send c).queue.length < sendCap →
        h1.send c = { queue := (h.send c).queue ++ [hmsg.msg], closed := false } ∧
          c ∈ h1.clients) ∧
      (∀ c, c ∈ h.clients → h.userID c = hmsg.userID → sendCap ≤ (h.send c).queue.length →
        h1.send c = { queue := (h.send c).queue, closed := true } ∧ c ∉ h1.clients) ∧
      (∀ c, ¬ (c ∈ h.clients ∧ h.userID c = hmsg.userID) →
        h1.send c = h.send c ∧ (c ∈ h1.clients ↔ c ∈ h.clients)) := by
  obtain ⟨h1, e1, u1, s1, m1⟩ :=
    Hub.broadcast_spec h hmsg (fun c hc hu => hopen c hc hu.symm)
  refine ⟨h1, e1, u1, ?_, ?_, ?_⟩
  · intro c hc hu hroom
    constructor
    · rw [s1 c, if_pos hc]
      unfold deliverChan
      rw [if_neg (not_not.mpr hu.symm), if_pos hroom, ← hopen c hc hu]
    · exact (m1 c).mpr ⟨hc, fun hx => absurd hroom (Nat.not_lt.mpr hx.2)⟩
  · intro c hc hu hfull
    constructor
    · rw [s1 c, if_pos hc]
      unfold deliverChan
      rw [if_neg (not_not.mpr hu.symm), if_neg (Nat.not_lt.mpr hfull)]
    · intro hx
      exact ((m1 c).mp hx).2 ⟨hu.symm, hfull⟩
  · intro c hn
    constructor
    · rw [s1 c]
      by_cases hc : c ∈ h.clients
      · rw [if_pos hc]
        unfold deliverChan
        rw [if_pos (fun hx => hn ⟨hc, hx.symm⟩)]
      · rw [if_neg hc]
    · constructor
      · intro hx; exact ((m1 c).mp hx).1
      · intro hc
        exact (m1 c).mpr ⟨hc, fun hx => hn ⟨hc, hx.1.symm⟩⟩

theorem sampleHub_open (u : Int) :
    ∀ c ∈ sampleHub.clients, sampleHub.userID c = u → (sampleHub.send c).closed = false := by
  intro c _ _
  unfold sampleHub
  dsimp only
  split <;> rfl

/-- In `sampleHub` the broadcast `(7, payload)` reaches client 1, closes and
removes client 0, whose queue is full, and leaves client 2 alone. -/
theorem Hub.broadcast_delivers_witness :
    (∀ c ∈ sampleHub.clients, sampleHub.userID c = (⟨7, [1]⟩ : hubMsg).userID →
      (sampleHub.send c).closed = false) ∧
    ∃ h1, sampleHub.broadcast ⟨7, [1]⟩ = some h1 ∧ h1.userID = sampleHub.userID ∧
      (∀ c, c ∈ sampleHub.clients → sampleHub.userID c = (⟨7, [1]⟩ : hubMsg).userID →
        (sampleHub.send c).queue.length < sendCap →
        h1.send c = { queue := (sampleHub.send c).queue ++ [(⟨7, [1]⟩ : hubMsg).msg],
                      closed := false } ∧ c ∈ h1.clients) ∧
      (∀ c, c ∈ sampleHub.clients → sampleHub.userID c = (⟨7, [1]⟩ : hubMsg).userID →
        sendCap ≤ (sampleHub.send c).queue.length →
        h1.send c = { queue := (sampleHub.send c).queue, closed := true } ∧ c ∉ h1.clients) ∧
      (∀ c, ¬ (c ∈ sampleHub.clients ∧ sampleHub.userID c = (⟨7, [1]⟩ : hubMsg).userID) →
        h1.send c = sampleHub.send c ∧ (c ∈ h1.clients ↔ c ∈ sampleHub.clients)) :=
  ⟨sampleHub_open 7, Hub.broadcast_delivers sampleHub ⟨7, [1]⟩ (sampleHub_open 7)⟩

/-- The unregister case of `Run`, for a client that is registered with an
open channel or not registered at all. -/
theorem Hub.unregister_spec (h : Hub) (c : ClientRef)
    (hopen : c ∈ h.clients → (h.send c).closed = false) :
    ∃ h1, h.unregister c = some h1 ∧ h1.userID = h.userID ∧ c ∉ h1.clients ∧
      (c ∈ h.clients → h1.send c = { queue := (h.send c).queue, closed := true }) ∧
      (c ∉ h.clients → h1 = h) ∧
      (∀ d, d ≠ c → h1.send d = h.send d ∧ (d ∈ h1.clients ↔ d ∈ h.clients)) := by
  by_cases hc : c ∈ h.clients
  · have ho := hopen hc
    refine ⟨(h.delete c).setSend c { h.send c with closed := true }, ?_, rfl, ?_, ?_, ?_, ?_⟩
    · unfold Hub.unregister
      rw [if_pos hc]
      simp only [closeChan, ho, Bool.false_eq_true, if_false]
    · show c ∉ (h.delete c).clients
      rw [Hub.mem_delete]
      exact fun hx => hx.1 rfl
    · intro _
      simp only [Hub.setSend, if_true]
    · intro hx; exact absurd hc hx
    · intro d hd
      constructor
      · simp only [Hub.setSend, Hub.delete, hd, if_false]
      · show d ∈ (h.delete c).clients ↔ _
        rw [Hub.mem_delete]
        exact ⟨fun hx => hx.2, fun hx => ⟨hd, hx⟩⟩
  · refine ⟨h, ?_, rfl, hc, fun hx => absurd hx hc, fun _ => rfl, fun d _ => ⟨rfl, Iff.rfl⟩⟩
    unfold Hub.unregister
    rw [if_neg hc]

/-- C6: in a hub whose registered clients have open queues, a broadcast whose
user matches a registered client `c` with a full queue has on `c` the effect
of `unregister(c)`: both leave the queue of `c` closed with its pending
payloads and `c` out of the registry; and no later broadcast changes the
queue of `c` or brings `c` back. -/
theorem Hub.broadcast_overflow (h : Hub) (hmsg : hubMsg) (c : ClientRef)
    (hopen : ∀ d ∈ h.clients, (h.send d).closed = false)
    (hc : c ∈ h.clients) (hu : h.userID c = hmsg.userID)
    (hfull : sendCap ≤ (h.send c).queue.length) :
    ∃ hb hr, h.broadcast hmsg = some hb ∧ h.unregister c = some hr ∧
      hb.send c = hr.send c ∧
      hb.send c = { queue := (h.send c).queue, closed := true } ∧
      c ∉ hb.clients ∧ c ∉ hr.clients ∧
      ∀ later : List hubMsg, ∃ hn, later.foldlM Hub.broadcast hb = some hn ∧
        hn.send c = hb.send c ∧ c ∉ hn.clients := by
  obtain ⟨hb, eb, _, sb, mb⟩ := Hub.broadcast_spec h hmsg (fun d hd _ => hopen d hd)
  obtain ⟨hb2, eb2, _, _, _, ob⟩ := Hub.broadcast_keeps_open h hmsg hopen
  obtain ⟨hr, er, _, mr, sr, _, _⟩ := Hub.unregister_spec h c (fun hx => hopen c hx)
  have hbb : hb2 = hb := Option.some.inj (eb2.symm.trans eb)
  subst hbb
  have hsend : hb2.send c = { queue := (h.send c).queue, closed := true } := by
    rw [sb c, if_pos hc]
    unfold deliverChan
    rw [if_neg (not_not.mpr hu.symm), if_neg (Nat.not_lt.mpr hfull)]
  have hmem : c ∉ hb2.clients := fun hx => ((mb c).mp hx).2 ⟨hu.symm, hfull⟩
  refine ⟨hb2, hr, eb, er, ?_, hsend, hmem, mr, ?_⟩
  · rw [hsend, sr hc]
  · intro later
    exact Hub.broadcasts_skip_unregistered c later hb2 ob hmem

/-- In `sampleHub` client 0 has user 7 and a full queue: the broadcast
`(7, payload)` and `unregister(0)` leave it in the same state. -/
theorem Hub.broadcast_overflow_witness :
    (∀ d ∈ sampleHub.clients, (sampleHub.send d).closed = false) ∧
    0 ∈ sampleHub.clients ∧ sampleHub.userID 0 = (⟨7, [1]⟩ : hubMsg).userID ∧
    sendCap ≤ (sampleHub.send 0).queue.length ∧
    ∃ hb hr, sampleHub.broadcast ⟨7, [1]⟩ = some hb ∧ sampleHub.unregister 0 = some hr ∧
      hb.send 0 = hr.send 0 ∧
      hb.send 0 = { queue := (sampleHub.send 0).queue, closed := true } ∧
      0 ∉ hb.clients ∧ 0 ∉ hr.clients ∧
      ∀ later : List hubMsg, ∃ hn, later.foldlM Hub.broadcast hb = some hn ∧
        hn.send 0 = hb.send 0 ∧ 0 ∉ hn.clients :=
  have hfull : sendCap ≤ (sampleHub.send 0).queue.length := by
    show 256 ≤ (List.replicate 256 ([] : Bytes)).length
    rw [List.length_replicate]
  ⟨fun d hd => sampleHub_open (sampleHub.userID d) d hd rfl, by decide, by decide, hfull,
    Hub.broadcast_overflow sampleHub ⟨7, [1]⟩ 0
      (fun d hd => sampleHub_open (sampleHub.userID d) d hd rfl) (by decide) (by decide) hfull⟩

/-- C7: processing `unregister(c)`, for a client that is not registered or is
registered with an open queue, yields a state whose registry does not contain
`c`, with the queue of `c` closed if `c` was registered; if `c` was not
registered the whole state is unchanged; hence processing `unregister(c)` a
second time changes nothing. -/
theorem Hub.unregister_idempotent (h : Hub) (c : ClientRef)
    (hopen : c ∈ h.clients → (h.send c).closed = false) :
    ∃ h1, h.unregister c = some h1 ∧ c ∉ h1.clients ∧
      (c ∈ h.clients → h1.send c = { queue := (h.send c).queue, closed := true }) ∧
      (c ∉ h.clients → h1 = h) ∧
      h1.unregister c = some h1 := by
  obtain ⟨h1, e1, _, m1, s1, n1, _⟩ := Hub.unregister_spec h c hopen
  refine ⟨h1, e1, m1, s1, n1, ?_⟩
  unfold Hub.unregister
  rw [if_neg m1]

/-- In `sampleHub` client 1 is registered with an open queue; `unregister(1)`
removes it and closes its queue, and a second `unregister(1)` is a no-op. -/
theorem Hub.unregister_idempotent_witness :
    (1 ∈ sampleHub.clients → (sampleHub.send 1).closed = false) ∧
    ∃ h1, sampleHub.unregister 1 = some h1 ∧ 1 ∉ h1.clients ∧
      (1 ∈ sampleHub.clients →
        h1.send 1 = { queue := (sampleHub.send 1).queue, closed := true }) ∧
      (1 ∉ sampleHub.clients → h1 = sampleHub) ∧
      h1.unregister 1 = some h1 :=
  ⟨fun _ => rfl, Hub.unregister_idempotent sampleHub 1 (fun _ => rfl)⟩

theorem registeredBy_sublist_cons (ev : HubEvent) (evs : List HubEvent) :
    ∀ c, c ∈ registeredBy evs → c ∈ registeredBy (ev :: evs) := by
  intro c hc
  cases ev with
  | register d => exact List.mem_cons_of_mem d hc
  | unregister d => exact hc
  | broadcast m => exact hc
  | receive d => exact hc

/-- The invariant behind C8: if every client that is registered or whose
queue is closed is in the list `past`, and no client of `past` is registered
again, nor any client twice, then the events are processed without a panic
and every registered client has an open queue at the end. -/
theorem Hub.run_invariant :
    ∀ (evs : List HubEvent) (h : Hub) (past : List ClientRef),
      (past ++ registeredBy evs).Nodup →
      (∀ c ∈ h.clients, c ∈ past ∧ (h.send c).closed = false) →
      (∀ c, (h.send c).closed = true → c ∈ past) →
      ∃ h1, h.run evs = some h1 ∧ ∀ c ∈ h1.clients, (h1.send c).closed = false := by
  intro evs
  induction evs with
  | nil =>
    intro h past _ hreg _
    exact ⟨h, rfl, fun c hc => (hreg c hc).2⟩
  | cons ev evs ih =>
    intro h past hnd hreg hclosed
    cases ev with
    | register c =>
      have hnd2 : ((past ++ [c]) ++ registeredBy evs).Nodup := by
        rw [List.append_assoc]
        exact hnd
      have hcp : c ∉ past := by
        intro hx
        have := (List.nodup_append.mp hnd).2.2
        exact this hx (List.mem_cons_self c _)
      have hco : (h.send c).closed = false := by
        cases hcl : (h.send c).closed with
        | false => rfl
        | true => exact absurd (hclosed c hcl) hcp
      obtain ⟨h1, e1, o1⟩ := ih (h.insert c) (past ++ [c]) hnd2
        (by
          intro d hd
          have hd2 : d ∈ h.clients.insert c := hd
          rw [List.mem_insert_iff] at hd2
          rcases hd2 with hd2 | hd2
          · subst hd2
            exact ⟨List.mem_append_right _ (List.mem_singleton_self d), hco⟩
          · exact ⟨List.mem_append_left _ (hreg d hd2).1, (hreg d hd2).2⟩)
        (fun d hd => List.mem_append_left _ (hclosed d hd))
      exact ⟨h1, by rw [Hub.run, List.foldlM_cons]; exact e1, o1⟩
    | unregister c =>
      obtain ⟨h0, e0, _, m0, s0, n0, r0⟩ := Hub.unregister_spec h c (fun hx => (hreg c hx).2)
      obtain ⟨h1, e1, o1⟩ := ih h0 past hnd
        (by
          intro d hd
          have hdc : d ≠ c := fun hx => m0 (hx ▸ hd)
          obtain ⟨r1, r2⟩ := r0 d hdc
          rw [r1]
          exact hreg d (r2.mp hd))
        (by
          intro d hd
          by_cases hdc : d = c
          · subst hdc
            by_cases hc : d ∈ h.clients
            · exact (hreg d hc).1
            · rw [n0 hc] at hd
              exact hclosed d hd
          · rw [(r0 d hdc).1] at hd
            exact hclosed d hd)
      refine ⟨h1, ?_, o1⟩
      rw [Hub.run, List.foldlM_cons]
      show (h.unregister c).bind _ = _
      rw [e0]
      exact e1
    | broadcast m =>
      obtain ⟨h0, e0, _, s0, m0, o0⟩ := Hub.broadcast_keeps_open h m (fun c hc => (hreg c hc).2)
      obtain ⟨h1, e1, o1⟩ := ih h0 past hnd
        (fun d hd => ⟨(hreg d (m0 d hd)).1, o0 d hd⟩)
        (by
          intro d hd
          by_cases hc : d ∈ h.clients
          · exact (hreg d hc).1
          · rw [s0 d hc] at hd
            exact hclosed d hd)
      refine ⟨h1, ?_, o1⟩
      rw [Hub.run, List.foldlM_cons]
      show (h.broadcast m).bind _ = _
      rw [e0]
      exact e1
    | receive c =>
      have hcl : ∀ d, ((h.setSend c { h.send c with queue := (h.send c).queue.tail }).send d).closed
          = (h.send d).closed := by
        intro d
        by_cases hdc : d = c
        · subst hdc
          simp only [Hub.setSend, if_true]
        · simp only [Hub.setSend, hdc, if_false]
      obtain ⟨h1, e1, o1⟩ := ih (h.setSend c { h.send c with queue := (h.send c).queue.tail })
        past hnd
        (fun d hd => ⟨(hreg d hd).1, (hcl d).trans (hreg d hd).2⟩)
        (fun d hd => hclosed d ((hcl d).symm.trans hd))
      exact ⟨h1, by rw [Hub.run, List.foldlM_cons]; exact e1, o1⟩

/-- C8: from the hub made by `NewHub`, any sequence of register, unregister
and broadcast events (and receives by the write pumps) in which no client is
registered twice is processed without a panic, so no closed queue is closed
again or sent to, and in the state reached every registered client has an
open queue. -/
theorem Hub.run_registered_open (userID : ClientRef → Int) (evs : List HubEvent)
    (honce : (registeredBy evs).Nodup) :
    ∃ h, (NewHub userID).run evs = some h ∧ ∀ c ∈ h.clients, (h.send c).closed = false := by
  apply Hub.run_invariant evs (NewHub userID) []
  · exact honce
  · intro c hc
    exact absurd hc (List.not_mem_nil c)
  · intro c hc
    exact absurd hc Bool.false_ne_true

/-- A run in which client 0 is unregistered twice and client 1 stays. -/
theorem Hub.run_registered_open_witness :
    (registeredBy [.register 0, .register 1, .broadcast ⟨7, [1]⟩, .unregister 0,
      .unregister 0, .receive 1]).Nodup ∧
    ∃ h, (NewHub (fun _ => 7)).run [.register 0, .register 1, .broadcast ⟨7, [1]⟩,
        .unregister 0, .unregister 0, .receive 1] = some h ∧
      ∀ c ∈ h.clients, (h.send c).closed = false :=
  ⟨by decide, Hub.run_registered_open (fun _ => 7) _ (by decide)⟩

/-! ## The fuel of the parser -/


theorem map_some_mono {α β : Type} {x y : Option α} {g : α → β} {r : β}
    (hxy : ∀ a, x = some a → y = some a) (h : x.map g = some r) : y.map g = some r := by
  cases x with
  | none => cases h
  | some a => rw [hxy a rfl]; exact h

theorem parse_fuel_succ : ∀ fuel : Nat,
    (∀ d s r, parseValue fuel d s = some r → parseValue (fuel + 1) d s = some r) ∧
    (∀ d s r, parseMembers fuel d s = some r → parseMembers (fuel + 1) d s = some r) ∧
    (∀ d s r, parseElements fuel d s = some r → parseElements (fuel + 1) d s = some r) := by
  intro fuel
  induction fuel with
  | zero =>
    refine ⟨?_, ?_, ?_⟩ <;> intro d s r h
    · rw [parseValue] at h; cases h
    · rw [parseMembers] at h; cases h
    · rw [parseElements] at h; cases h
  | succ f ih =>
    obtain ⟨ihv, ihm, ihe⟩ := ih
    refine ⟨?_, ?_, ?_⟩
    · intro d s r h
      rw [parseValue] at h ⊢
      split at h
      · cases h
      · rename_i c rest hsk
        try simp only [hsk]
        split at h
        · rename_i hc
          rw [if_pos hc]
          split at h
          · cases h
          · rename_i hdep
            rw [if_neg hdep]
            split at h
            · cases h
            · rename_i c1 rest1 hsk1
              try simp only [hsk1]
              split at h
              · rename_i hc1
                simp only [hc1, if_true]
                exact h
              · rename_i hc1
                simp only [hc1, if_false]
                exact map_some_mono (ihm _ _) h
        · rename_i hc
          rw [if_neg hc]
          split at h
          · rename_i hc2
            rw [if_pos hc2]
            split at h
            · cases h
            · rename_i hdep
              rw [if_neg hdep]
              split at h
              · cases h
              · rename_i c1 rest1 hsk1
                try simp only [hsk1]
                split at h
                · rename_i hc1
                  simp only [hc1, if_true]
                  exact h
                · rename_i hc1
                  simp only [hc1, if_false]
                  exact map_some_mono (ihe _ _) h
          · rename_i hc2
            rw [if_neg hc2]
            exact h
    · intro d s r h
      simp only [parseMembers] at h ⊢
      split at h
      · cases h
      · rename_i q rest
        try simp only
        split at h
        · rename_i hq
          simp only [hq, if_true]
          split at h
          · cases h
          · rename_i key rest1 hk
            try simp only [hk]
            split at h
            · cases h
            · rename_i colon rest2 hsk
              try simp only [hsk]
              split at h
              · rename_i hcol
                simp only [hcol, if_true]
                split at h
                · cases h
                · rename_i v rest3 hv
                  rw [ihv _ _ _ hv]
                  try simp only
                  split at h
                  · cases h
                  · rename_i e rest4 hsk4
                    try simp only [hsk4]
                    split at h
                    · rename_i he
                      simp only [he, if_true]
                      exact map_some_mono (ihm _ _) h
                    · rename_i he
                      simp only [he, if_false]
                      exact h
              · cases h
        · cases h
    · intro d s r h
      simp only [parseElements] at h ⊢
      split at h
      · cases h
      · rename_i v rest hv
        rw [ihv _ _ _ hv]
        try simp only
        split at h
        · cases h
        · rename_i e rest1 hsk
          try simp only [hsk]
          split at h
          · rename_i he
            simp only [he, if_true]
            exact map_some_mono (ihe _ _) h
          · rename_i he
            simp only [he, if_false]
            exact h


theorem skipSpace_length (s : Bytes) : (skipSpace s).length ≤ s.length := by
  induction s with
  | nil => exact Nat.le_refl _
  | cons c t ih =>
    rw [skipSpace]
    split
    · exact Nat.le_succ_of_le ih
    · exact Nat.le_refl _

theorem map_snd_eq {α β : Type} {x : Option (α × Bytes)} {F : α × Bytes → β} {r : β × Bytes}
    (h : x.map (fun p => (F p, p.2)) = some r) : ∃ p, x = some p ∧ p.2 = r.2 := by
  cases x with
  | none => cases h
  | some p =>
    refine ⟨p, rfl, ?_⟩
    simp only [Option.map_some', Option.some.injEq] at h
    rw [← h]

theorem unquoteAux_length : ∀ (s : Bytes) (k : Nat) (r : Bytes × Bytes),
    unquoteAux k s = some r → r.2.length < s.length := by
  intro s
  induction s with
  | nil =>
    intro k r h
    cases k <;> cases h
  | cons c t ih =>
    intro k r h
    have step : ∀ (k1 : Nat) (F : Bytes × Bytes → Bytes),
        (unquoteAux k1 t).map (fun p => (F p, p.2)) = some r → r.2.length < (c :: t).length := by
      intro k1 F hm
      obtain ⟨p, hp, hp2⟩ := map_snd_eq hm
      rw [← hp2]
      exact Nat.lt_succ_of_lt (ih k1 p hp)
    cases k with
    | succ k =>
      rw [unquoteAux] at h
      exact Nat.lt_succ_of_lt (ih k r h)
    | zero =>
      simp only [unquoteAux] at h
      repeat' split at h
      all_goals first
        | exact step _ _ h
        | (cases h; done)
        | (cases h; exact Nat.lt_succ_self _)

theorem takeDigits_length (s : Bytes) : (takeDigits s).2.length ≤ s.length := by
  induction s with
  | nil => exact Nat.le_refl _
  | cons c t ih =>
    rw [takeDigits]
    split
    · exact Nat.le_succ_of_le ih
    · exact Nat.le_refl _

theorem parseExponent_length (s : Bytes) (r : Bytes × Bytes) (h : parseExponent s = some r) :
    r.2.length ≤ s.length := by
  unfold parseExponent at h
  split at h
  · rename_i e rest
    split at h
    · split at h
      · rename_i sg rest1
        split at h
        · split at h
          · cases h
          · cases h
            have := takeDigits_length rest1
            simp only [List.length_cons]
            omega
        · split at h
          · cases h
          · cases h
            have := takeDigits_length (sg :: rest1)
            simp only [List.length_cons] at this ⊢
            omega
      · cases h
    · cases h
      exact Nat.le_refl _
  · cases h
    exact Nat.le_refl _

theorem parseFraction_length (s : Bytes) (r : Bytes × Bytes) (h : parseFraction s = some r) :
    r.2.length ≤ s.length := by
  unfold parseFraction at h
  split at h
  · rename_i dot rest
    split at h
    · split at h
      · cases h
      · obtain ⟨p, hp, hp2⟩ := map_snd_eq (F := fun p => dot :: (takeDigits rest).1 ++ p.1) h
        have h1 := parseExponent_length _ _ hp
        have h2 := takeDigits_length rest
        rw [← hp2]
        simp only [List.length_cons]
        omega
    · exact parseExponent_length _ _ h
  · cases h
    exact Nat.le_refl _

theorem parseNumber_length (s : Bytes) (r : Bytes × Bytes) (h : parseNumber s = some r) :
    r.2.length < s.length := by
  unfold parseNumber at h
  simp only at h
  have hbody : (if s.head? = some 0x2D then s.tail else s).length ≤ s.length := by
    split
    · rw [List.length_tail]; omega
    · exact Nat.le_refl _
  split at h
  · cases h
  · rename_i d rest hb
    rw [hb] at hbody
    simp only [List.length_cons] at hbody
    split at h
    · obtain ⟨p, hp, hp2⟩ := map_snd_eq
        (F := fun p => (if s.head? = some 0x2D then [0x2D] else []) ++ d :: p.1) h
      have h1 := parseFraction_length _ _ hp
      rw [← hp2]
      omega
    · split at h
      · obtain ⟨p, hp, hp2⟩ := map_snd_eq
          (F := fun p => (if s.head? = some 0x2D then [0x2D] else []) ++
            d :: (takeDigits rest).1 ++ p.1) h
        have h1 := parseFraction_length _ _ hp
        have h2 := takeDigits_length rest
        rw [← hp2]
        omega
      · cases h

theorem expectLit_length : ∀ (name s r : Bytes), name ≠ [] → expectLit name s = some r →
    r.length < s.length := by
  have hle : ∀ (name s r : Bytes), expectLit name s = some r → r.length ≤ s.length := by
    intro name
    induction name with
    | nil =>
      intro s r h
      rw [expectLit] at h
      cases h
      exact Nat.le_refl _
    | cons n name ih =>
      intro s r h
      cases s with
      | nil => rw [expectLit] at h; cases h
      | cons c t =>
        rw [expectLit] at h
        split at h
        · exact Nat.le_succ_of_le (ih t r h)
        · cases h
  intro name s r hne h
  cases name with
  | nil => exact absurd rfl hne
  | cons n name =>
    cases s with
    | nil => rw [expectLit] at h; cases h
    | cons c t =>
      rw [expectLit] at h
      split at h
      · exact Nat.lt_succ_of_le (hle name t r h)
      · cases h


theorem map_snd_eq2 {α β : Type} {x : Option (α × Bytes)} {F : α → β} {r : β × Bytes}
    (h : x.map (fun p => (F p.1, p.2)) = some r) : ∃ p, x = some p ∧ p.2 = r.2 :=
  map_snd_eq (F := fun p => F p.1) h

theorem map_rest_eq {β : Type} {x : Option Bytes} {b : β} {r : β × Bytes}
    (h : x.map (fun p => (b, p)) = some r) : x = some r.2 := by
  cases x with
  | none => cases h
  | some p =>
    simp only [Option.map_some', Option.some.injEq] at h
    rw [← h]

/-- Every successful parse consumes input. -/
theorem parse_consumes : ∀ fuel : Nat,
    (∀ d s r, parseValue fuel d s = some r → r.2.length < s.length) ∧
    (∀ d s r, parseMembers fuel d s = some r → r.2.length < s.length) ∧
    (∀ d s r, parseElements fuel d s = some r → r.2.length < s.length) := by
  intro fuel
  induction fuel with
  | zero =>
    refine ⟨?_, ?_, ?_⟩ <;> intro d s r h
    · rw [parseValue] at h; cases h
    · rw [parseMembers] at h; cases h
    · rw [parseElements] at h; cases h
  | succ f ih =>
    obtain ⟨ihv, ihm, ihe⟩ := ih
    refine ⟨?_, ?_, ?_⟩
    · intro d s r h
      have hs := skipSpace_length s
      rw [parseValue] at h
      split at h
      · cases h
      · rename_i c rest hsk
        rw [hsk] at hs
        simp only [List.length_cons] at hs
        have hr := skipSpace_length rest
        split at h
        · split at h
          · cases h
          · split at h
            · cases h
            · rename_i c1 rest1 hsk1
              rw [hsk1] at hr
              simp only [List.length_cons] at hr
              split at h
              · cases h
                simp only
                omega
              · obtain ⟨p, hp, hp2⟩ := map_snd_eq2 h
                have := ihm _ _ _ hp
                rw [hp2] at this
                simp only [List.length_cons] at this
                omega
        · split at h
          · split at h
            · cases h
            · split at h
              · cases h
              · rename_i c1 rest1 hsk1
                rw [hsk1] at hr
                simp only [List.length_cons] at hr
                split at h
                · cases h
                  simp only
                  omega
                · obtain ⟨p, hp, hp2⟩ := map_snd_eq2 h
                  have := ihe _ _ _ hp
                  rw [hp2] at this
                  simp only [List.length_cons] at this
                  omega
          · split at h
            · obtain ⟨p, hp, hp2⟩ := map_snd_eq2 h
              have := unquoteAux_length _ _ _ hp
              rw [hp2] at this
              omega
            · split at h
              · obtain ⟨p, hp, hp2⟩ := map_snd_eq2 h
                have := parseNumber_length _ _ hp
                rw [hp2] at this
                simp only [List.length_cons] at this
                omega
              · split at h
                · have := expectLit_length _ _ _ (by decide) (map_rest_eq h)
                  simp only [List.length_cons] at this
                  omega
                · split at h
                  · have := expectLit_length _ _ _ (by decide) (map_rest_eq h)
                    simp only [List.length_cons] at this
                    omega
                  · split at h
                    · have := expectLit_length _ _ _ (by decide) (map_rest_eq h)
                      simp only [List.length_cons] at this
                      omega
                    · cases h
    · intro d s r h
      simp only [parseMembers] at h
      split at h
      · cases h
      · rename_i q rest
        split at h
        · split at h
          · cases h
          · rename_i key rest1 hk
            have h1 := unquoteAux_length _ _ _ hk
            have h2 := skipSpace_length rest1
            split at h
            · cases h
            · rename_i colon rest2 hsk
              rw [hsk] at h2
              split at h
              · split at h
                · cases h
                · rename_i v rest3 hv
                  have h3 := ihv _ _ _ hv
                  have h4 := skipSpace_length rest3
                  split at h
                  · cases h
                  · rename_i e rest4 hsk4
                    rw [hsk4] at h4
                    have h5 := skipSpace_length rest4
                    simp only [List.length_cons] at h1 h2 h3 h4 h5 ⊢
                    split at h
                    · obtain ⟨p, hp, hp2⟩ := map_snd_eq (F := fun p => (key, v) :: p.1) h
                      have := ihm _ _ _ hp
                      rw [hp2] at this
                      omega
                    · split at h
                      · cases h
                        simp only
                        omega
                      · cases h
              · cases h
        · cases h
    · intro d s r h
      simp only [parseElements] at h
      split at h
      · cases h
      · rename_i v rest hv
        have h3 := ihv _ _ _ hv
        have h4 := skipSpace_length rest
        split at h
        · cases h
        · rename_i e rest1 hsk
          rw [hsk] at h4
          simp only [List.length_cons] at h3 h4
          split at h
          · obtain ⟨p, hp, hp2⟩ := map_snd_eq (F := fun p => v :: p.1) h
            have := ihe _ _ _ hp
            rw [hp2] at this
            omega
          · split at h
            · cases h
              simp only
              omega
            · cases h


/-- More fuel never changes a successful parse. -/
theorem parse_fuel_le (f n : Nat) (hfn : f ≤ n) :
    (∀ d s r, parseValue f d s = some r → parseValue n d s = some r) ∧
    (∀ d s r, parseMembers f d s = some r → parseMembers n d s = some r) ∧
    (∀ d s r, parseElements f d s = some r → parseElements n d s = some r) := by
  induction n, hfn using Nat.le_induction with
  | base => exact ⟨fun _ _ _ h => h, fun _ _ _ h => h, fun _ _ _ h => h⟩
  | succ n _ ih =>
    obtain ⟨iv, im, ie⟩ := ih
    obtain ⟨sv, sm, se⟩ := parse_fuel_succ n
    exact ⟨fun d s r h => sv d s r (iv d s r h), fun d s r h => sm d s r (im d s r h),
      fun d s r h => se d s r (ie d s r h)⟩

/-- A parse that succeeds with some fuel succeeds with fuel twice the length
of the input (plus one for members and elements). -/
theorem parse_fuel_enough : ∀ fuel : Nat,
    (∀ d s r, parseValue fuel d s = some r → parseValue (2 * s.length) d s = some r) ∧
    (∀ d s r, parseMembers fuel d s = some r → parseMembers (2 * s.length + 1) d s = some r) ∧
    (∀ d s r, parseElements fuel d s = some r →
      parseElements (2 * s.length + 1) d s = some r) := by
  intro fuel
  induction fuel with
  | zero =>
    refine ⟨?_, ?_, ?_⟩ <;> intro d s r h
    · rw [parseValue] at h; cases h
    · rw [parseMembers] at h; cases h
    · rw [parseElements] at h; cases h
  | succ f ih =>
    obtain ⟨ihv, ihm, ihe⟩ := ih
    have liftV : ∀ d s r n, 2 * s.length ≤ n → parseValue f d s = some r →
        parseValue n d s = some r :=
      fun d s r n hn h => (parse_fuel_le _ n hn).1 d s r (ihv d s r h)
    have liftM : ∀ d s r n, 2 * s.length + 1 ≤ n → parseMembers f d s = some r →
        parseMembers n d s = some r :=
      fun d s r n hn h => (parse_fuel_le _ n hn).2.1 d s r (ihm d s r h)
    have liftE : ∀ d s r n, 2 * s.length + 1 ≤ n → parseElements f d s = some r →
        parseElements n d s = some r :=
      fun d s r n hn h => (parse_fuel_le _ n hn).2.2 d s r (ihe d s r h)
    refine ⟨?_, ?_, ?_⟩
    · intro d s r h
      have hs := skipSpace_length s
      have hpos : 0 < s.length := Nat.lt_of_le_of_lt (Nat.zero_le _) ((parse_consumes _).1 d s r h)
      obtain ⟨K, hK⟩ : ∃ K, 2 * s.length = K + 1 := ⟨2 * s.length - 1, by omega⟩
      rw [hK]
      rw [parseValue] at h ⊢
      split at h
      · cases h
      · rename_i c rest hsk
        rw [hsk] at hs
        simp only [List.length_cons] at hs
        have hr := skipSpace_length rest
        split at h
        · rename_i hc
          rw [if_pos hc]
          split at h
          · cases h
          · rename_i hdep
            rw [if_neg hdep]
            split at h
            · cases h
            · rename_i c1 rest1 hsk1
              rw [hsk1] at hr
              simp only [List.length_cons] at hr
              split at h
              · rename_i hc1
                simp only [hc1, if_true]
                exact h
              · rename_i hc1
                simp only [hc1, if_false]
                refine map_some_mono (fun a ha => liftM _ _ _ _ ?_ ha) h
                simp only [List.length_cons]
                omega
        · rename_i hc
          rw [if_neg hc]
          split at h
          · rename_i hc2
            rw [if_pos hc2]
            split at h
            · cases h
            · rename_i hdep
              rw [if_neg hdep]
              split at h
              · cases h
              · rename_i c1 rest1 hsk1
                rw [hsk1] at hr
                simp only [List.length_cons] at hr
                split at h
                · rename_i hc1
                  simp only [hc1, if_true]
                  exact h
                · rename_i hc1
                  simp only [hc1, if_false]
                  refine map_some_mono (fun a ha => liftE _ _ _ _ ?_ ha) h
                  simp only [List.length_cons]
                  omega
          · rename_i hc2
            rw [if_neg hc2]
            exact h
    · intro d s r h
      simp only [parseMembers] at h ⊢
      split at h
      · cases h
      · rename_i q rest
        try simp only
        split at h
        · rename_i hq
          simp only [hq, if_true]
          split at h
          · cases h
          · rename_i key rest1 hk
            have h1 := unquoteAux_length _ _ _ hk
            have h2 := skipSpace_length rest1
            try simp only [hk]
            split at h
            · cases h
            · rename_i colon rest2 hsk
              rw [hsk] at h2
              try simp only [hsk]
              split at h
              · rename_i hcol
                simp only [hcol, if_true]
                split at h
                · cases h
                · rename_i v rest3 hv
                  have h3 := (parse_consumes f).1 _ _ _ hv
                  have h4 := skipSpace_length rest3
                  simp only [List.length_cons] at h1 h2 h3 h4
                  rw [liftV _ _ _ _ (by simp only [List.length_cons]; omega) hv]
                  try simp only
                  split at h
                  · cases h
                  · rename_i e rest4 hsk4
                    rw [hsk4] at h4
                    have h5 := skipSpace_length rest4
                    simp only [List.length_cons] at h4
                    try simp only [hsk4]
                    split at h
                    · rename_i he
                      simp only [he, if_true]
                      refine map_some_mono (fun a ha => liftM _ _ _ _ ?_ ha) h
                      simp only [List.length_cons]
                      omega
                    · rename_i he
                      simp only [he, if_false]
                      exact h
              · cases h
        · cases h
    · intro d s r h
      simp only [parseElements] at h ⊢
      split at h
      · cases h
      · rename_i v rest hv
        have h3 := (parse_consumes f).1 _ _ _ hv
        have h4 := skipSpace_length rest
        simp only at h3
        rw [liftV _ _ _ _ (Nat.le_refl _) hv]
        try simp only
        split at h
        · cases h
        · rename_i e rest1 hsk
          rw [hsk] at h4
          simp only [List.length_cons] at h4
          try simp only [hsk]
          split at h
          · rename_i he
            simp only [he, if_true]
            refine map_some_mono (fun a ha => liftE _ _ _ _ ?_ ha) h
            omega
          · rename_i he
            simp only [he, if_false]
            exact h

/-- The fuel of `decoderDecode` is enough: with any larger fuel the parser
gives the same result. -/
theorem parseValue_fuel_adequate (n depth : Nat) (s : Bytes) (hn : 2 * s.length + 1 ≤ n) :
    parseValue n depth s = parseValue (2 * s.length + 1) depth s := by
  cases h : parseValue n depth s with
  | some r =>
    exact ((parse_fuel_le _ _ (Nat.le_succ _)).1 depth s r
      ((parse_fuel_enough n).1 depth s r h)).symm
  | none =>
    cases h2 : parseValue (2 * s.length + 1) depth s with
    | none => rfl
    | some r =>
      have := (parse_fuel_le _ n hn).1 depth s r h2
      rw [h] at this
      cases this

/-! ## Properties of request-body decoding -/

theorem skipSpace_replicate_space (n : Nat) : skipSpace (List.replicate n 0x20) = [] := by
  induction n with
  | zero => rfl
  | succ n ih =>
    rw [List.replicate_succ]
    show (if isSpace 0x20 then skipSpace (List.replicate n 0x20) else _) = _
    rw [if_pos (by decide)]
    exact ih

theorem parseValue_empty_object (fuel depth : Nat) (hd : depth < maxNestingDepth)
    (rest : Bytes) :
    parseValue (fuel + 1) depth (0x7B :: 0x7D :: rest) = some (JValue.object [], rest) := by
  have h1 : skipSpace (0x7B :: 0x7D :: rest) = 0x7B :: 0x7D :: rest := by
    show (if isSpace 0x7B then _ else _) = _
    rw [if_neg (by decide)]
  have h2 : skipSpace (0x7D :: rest) = 0x7D :: rest := by
    show (if isSpace 0x7D then _ else _) = _
    rw [if_neg (by decide)]
  rw [parseValue, h1]
  simp only [if_true, h2, if_neg (Nat.not_le.mpr hd)]

/-- Every error that `parseJSONBody` returns carries status 400. -/
theorem parseJSONBody_error_status {α : Type} (body : Option Bytes)
    (unmarshal : JValue → α → α × Option GoError) (obj : α) (e : GoError)
    (h : (parseJSONBody body unmarshal obj).2 = some e) : e.HTTPStatusCode = some 400 := by
  unfold parseJSONBody at h
  cases body with
  | none =>
    simp only [Option.some.injEq] at h
    subst h
    rfl
  | some b =>
    simp only at h
    split at h
    · simp only [Option.some.injEq] at h
      subst h
      rfl
    · split at h
      · simp only [Option.some.injEq] at h
        subst h
        rfl
      · cases h

/-- A body made of `{}`, then spaces up to the limit of the reader, then
anything: the reader cuts it after the spaces, and `parseJSONBody` returns
nil. -/
theorem parseJSONBody_beyond_limit (n : Nat) (hn : n + 2 = maxBodyLen) (tail : Bytes) :
    (parseJSONBody (some (0x7B :: 0x7D :: (List.replicate n 0x20 ++ tail)))
      unmarshalAny none).2 = none := by
  have htake : (0x7B :: 0x7D :: (List.replicate n 0x20 ++ tail)).take maxBodyLen =
      0x7B :: 0x7D :: List.replicate n 0x20 := by
    have h : (0x7B :: 0x7D :: (List.replicate n 0x20 ++ tail)) =
        (0x7B :: 0x7D :: List.replicate n 0x20) ++ tail := rfl
    rw [h]
    apply List.take_left'
    rw [List.length_cons, List.length_cons, List.length_replicate]
    exact hn
  have hdec : decoderDecode unmarshalAny none
      ((0x7B :: 0x7D :: (List.replicate n 0x20 ++ tail)).take maxBodyLen) =
      (some (JValue.object []), none, List.replicate n 0x20) := by
    rw [htake]
    unfold decoderDecode
    rw [parseValue_empty_object _ 0 (by decide)]
    rfl
  unfold parseJSONBody
  simp only [hdec, Option.isSome_none, Bool.false_eq_true, if_false, decoderMore,
    skipSpace_replicate_space]

/-- C9, as stated, fails: `oversizeBody` consists of the complete value `{}`,
which the destination accepts, followed by spaces and the byte `x`, which
lies beyond the `maxBodyLen` bytes that the reader passes on; `parseJSONBody`
returns nil for it. -/
theorem parseJSONBody_trailing_counterexample :
    (decoderDecode unmarshalAny none [0x7B, 0x7D]).2 = (none, []) ∧
    (parseJSONBody (some oversizeBody) unmarshalAny none).2 = none := by
  refine ⟨by decide, ?_⟩
  exact parseJSONBody_beyond_limit (maxBodyLen - 2) (by decide) [0x78]

/-- The missed case of `Decoder.More`: for the body `{}}` (a complete value
followed by a closing brace) `parseJSONBody` returns nil as well. -/
theorem parseJSONBody_trailing_brace :
    (parseJSONBody (some [0x7B, 0x7D, 0x7D]) unmarshalAny none).2 = none := by
  decide

set_option exponentiation.threshold 1100 in
set_option maxRecDepth 100000 in
/-- A number that does not fit `float64` is refused by the destination
`*interface{}`, and the body is answered with status 400; a number that fits
is accepted. -/
theorem parseJSONBody_number_range :
    (parseJSONBody (some (ascii "1e999")) unmarshalAny none).2.map GoError.HTTPStatusCode =
      some (some 400) ∧
    (parseJSONBody (some (ascii "[1e300]")) unmarshalAny none).2 = none := by
  decide

/-- C9, amended: if, within the first `maxBodyLen` bytes of the body,
`Decode` reads a complete JSON value that the destination accepts, and the
next byte after optional whitespace exists within those bytes and is neither
`]` nor the closing brace, then `parseJSONBody` returns an error, and its
`HTTPStatusCode()` is 400. -/
theorem parseJSONBody_rejects_trailing {α : Type} (body : Bytes)
    (unmarshal : JValue → α → α × Option GoError) (obj : α) (c : Nat) (rest : Bytes)
    (hdec : (decoderDecode unmarshal obj (body.take maxBodyLen)).2.1 = none)
    (hrest : skipSpace (decoderDecode unmarshal obj (body.take maxBodyLen)).2.2 = c :: rest)
    (hc : c ≠ 0x5D ∧ c ≠ 0x7D) :
    ∃ e, (parseJSONBody (some body) unmarshal obj).2 = some e ∧
      e.HTTPStatusCode = some 400 := by
  have hmore : decoderMore (decoderDecode unmarshal obj (body.take maxBodyLen)).2.2 = true := by
    unfold decoderMore
    rw [hrest]
    simp only [bne_iff_ne, ne_eq, Bool.and_eq_true]
    exact hc
  have hres : (parseJSONBody (some body) unmarshal obj).2 =
      some (httpStatusString 400 (ascii "HTTP Body contains extra data after JSON object")) := by
    unfold parseJSONBody
    simp only [hdec, Option.isSome_none, Bool.false_eq_true, if_false, hmore, if_true]
  exact ⟨_, hres, rfl⟩

/-- The body `{} x`: the value `{}` followed by a space and the byte `x`. -/
theorem parseJSONBody_rejects_trailing_witness :
    (decoderDecode unmarshalAny none (List.take maxBodyLen [0x7B, 0x7D, 0x20, 0x78])).2.1 = none ∧
    skipSpace (decoderDecode unmarshalAny none
      (List.take maxBodyLen [0x7B, 0x7D, 0x20, 0x78])).2.2 = 0x78 :: [] ∧
    ((0x78 : Nat) ≠ 0x5D ∧ (0x78 : Nat) ≠ 0x7D) ∧
    ∃ e, (parseJSONBody (some [0x7B, 0x7D, 0x20, 0x78]) unmarshalAny none).2 = some e ∧
      e.HTTPStatusCode = some 400 :=
  ⟨by decide, by decide, by decide,
    parseJSONBody_rejects_trailing [0x7B, 0x7D, 0x20, 0x78] unmarshalAny none 0x78 []
      (by decide) (by decide) (by decide)⟩

/-! ## The error envelope: encoding and decoding -/


theorem appendStringAux_skip : ∀ (k : Nat) (s : Bytes),
    appendStringAux k s = appendStringAux 0 (s.drop k) := by
  intro k
  induction k with
  | zero => intro s; rfl
  | succ k ih =>
    intro s
    cases s with
    | nil => rfl
    | cons b t =>
      rw [List.drop_succ_cons, ← ih t]
      rfl

theorem utf8ValidAux_skip : ∀ (k : Nat) (s : Bytes),
    utf8ValidAux k s = utf8ValidAux 0 (s.drop k) := by
  intro k
  induction k with
  | zero => intro s; rfl
  | succ k ih =>
    intro s
    cases s with
    | nil => rfl
    | cons b t =>
      rw [List.drop_succ_cons, ← ih t]
      rfl

theorem unquoteAux_skip : ∀ (k : Nat) (s : Bytes),
    unquoteAux k s = unquoteAux 0 (s.drop k) := by
  intro k
  induction k with
  | zero => intro s; rfl
  | succ k ih =>
    intro s
    cases s with
    | nil => rfl
    | cons b t =>
      rw [List.drop_succ_cons, ← ih t]
      rfl

theorem unquoteAux_ascii (b : Nat) (hb : b < 0x80) (X : Bytes) :
    unquoteAux 0 ((if htmlSafe b then [b] else escapeByte b) ++ X) =
      (unquoteAux 0 X).map (fun p => (b :: p.1, p.2)) := by
  interval_cases b <;> rfl


/-- A multi-byte rune that decodes without error: the bytes of its encoding. -/
theorem decodeRune_valid (b : Nat) (t : Bytes) (hb : 0x80 ≤ b)
    (hv : ¬ ((decodeRune (b :: t)).1 = RuneError ∧ (decodeRune (b :: t)).2 = 1)) :
    ∃ tl t1, t = tl ++ t1 ∧ tl.length + 1 = (decodeRune (b :: t)).2 ∧
      1 ≤ tl.length ∧ tl.length ≤ 3 ∧
      (∀ Y, decodeRune (b :: (tl ++ Y)) = decodeRune (b :: t)) ∧
      encodeRune (decodeRune (b :: t)).1 = b :: tl := by
  have hb0 : ¬ b < 0x80 := Nat.not_lt.mpr hb
  unfold decodeRune at hv ⊢
  simp only [hb0, if_false] at hv ⊢
  by_cases h1 : b < 0xC2
  · simp only [h1, if_true] at hv
    exact absurd hv (by simp)
  · simp only [h1, if_false] at hv ⊢
    by_cases h2 : b < 0xE0
    · simp only [h2, if_true] at hv ⊢
      cases t with
      | nil => exact absurd hv (by simp)
      | cons b1 t1 =>
        simp only at hv ⊢
        by_cases hc : 0x80 ≤ b1 ∧ b1 ≤ 0xBF
        · simp only [hc, and_self, if_true] at hv ⊢
          refine ⟨[b1], t1, rfl, rfl, by simp, by simp, ?_, ?_⟩
          · intro Y
            simp only [List.singleton_append, hc, and_self, if_true]
          · unfold encodeRune
            have e1 : ¬ (b % 32 * 64 + b1 % 64 < 0x80) := by omega
            have e2 : b % 32 * 64 + b1 % 64 < 0x800 := by omega
            rw [if_neg e1, if_pos e2]
            have e3 : 0xC0 + (b % 32 * 64 + b1 % 64) / 64 = b := by omega
            have e4 : 0x80 + (b % 32 * 64 + b1 % 64) % 64 = b1 := by omega
            rw [e3, e4]
        · simp only [hc, if_false] at hv
          exact absurd hv (by simp)
    · simp only [h2, if_false] at hv ⊢
      by_cases h3 : b < 0xF0
      · simp only [h3, if_true] at hv ⊢
        match t, hv with
        | [], hv => exact absurd hv (by simp)
        | [_], hv => exact absurd hv (by simp)
        | b1 :: b2 :: t1, hv =>
          simp only at hv ⊢
          by_cases hc : (if b = 0xE0 then 0xA0 else 0x80) ≤ b1 ∧
              b1 ≤ (if b = 0xED then 0x9F else 0xBF) ∧ 0x80 ≤ b2 ∧ b2 ≤ 0xBF
          · rw [if_pos hc] at hv ⊢
            refine ⟨[b1, b2], t1, rfl, rfl, by simp, by simp, ?_, ?_⟩
            · intro Y
              simp only [List.cons_append, List.nil_append]
              rw [if_pos hc]
            · obtain ⟨c1, c2, c3, c4⟩ := hc
              have c1' : 0x80 ≤ b1 := by split at c1 <;> omega
              have c2' : b1 ≤ 0xBF := by split at c2 <;> omega
              have c5 : b = 0xE0 → 0xA0 ≤ b1 := by intro hx; rw [if_pos hx] at c1; exact c1
              have c6 : b = 0xED → b1 ≤ 0x9F := by intro hx; rw [if_pos hx] at c2; exact c2
              unfold encodeRune
              have e1 : ¬ (b % 16 * 4096 + b1 % 64 * 64 + b2 % 64 < 0x80) := by omega
              have e2 : ¬ (b % 16 * 4096 + b1 % 64 * 64 + b2 % 64 < 0x800) := by omega
              have e3 : ¬ ((0xD800 ≤ b % 16 * 4096 + b1 % 64 * 64 + b2 % 64 ∧
                  b % 16 * 4096 + b1 % 64 * 64 + b2 % 64 ≤ 0xDFFF) ∨
                  0x10FFFF < b % 16 * 4096 + b1 % 64 * 64 + b2 % 64) := by omega
              have e4 : b % 16 * 4096 + b1 % 64 * 64 + b2 % 64 < 0x10000 := by omega
              rw [if_neg e1, if_neg e2, if_neg e3, if_pos e4]
              have f1 : 0xE0 + (b % 16 * 4096 + b1 % 64 * 64 + b2 % 64) / 4096 = b := by omega
              have f2 : 0x80 + (b % 16 * 4096 + b1 % 64 * 64 + b2 % 64) / 64 % 64 = b1 := by
                omega
              have f3 : 0x80 + (b % 16 * 4096 + b1 % 64 * 64 + b2 % 64) % 64 = b2 := by omega
              rw [f1, f2, f3]
          · rw [if_neg hc] at hv
            exact absurd hv (by simp)
      · simp only [h3, if_false] at hv ⊢
        by_cases h4 : b < 0xF5
        · simp only [h4, if_true] at hv ⊢
          match t, hv with
          | [], hv => exact absurd hv (by simp)
          | [_], hv => exact absurd hv (by simp)
          | [_, _], hv => exact absurd hv (by simp)
          | b1 :: b2 :: b3 :: t1, hv =>
            simp only at hv ⊢
            by_cases hc : (if b = 0xF0 then 0x90 else 0x80) ≤ b1 ∧
                b1 ≤ (if b = 0xF4 then 0x8F else 0xBF) ∧ 0x80 ≤ b2 ∧ b2 ≤ 0xBF ∧
                0x80 ≤ b3 ∧ b3 ≤ 0xBF
            · rw [if_pos hc] at hv ⊢
              refine ⟨[b1, b2, b3], t1, rfl, rfl, by simp, by simp, ?_, ?_⟩
              · intro Y
                simp only [List.cons_append, List.nil_append]
                rw [if_pos hc]
              · obtain ⟨c1, c2, c3, c4, c7, c8⟩ := hc
                have c1' : 0x80 ≤ b1 := by split at c1 <;> omega
                have c2' : b1 ≤ 0xBF := by split at c2 <;> omega
                have c5 : b = 0xF0 → 0x90 ≤ b1 := by
                  intro hx; rw [if_pos hx] at c1; exact c1
                have c6 : b = 0xF4 → b1 ≤ 0x8F := by
                  intro hx; rw [if_pos hx] at c2; exact c2
                unfold encodeRune
                have e1 : ¬ (b % 8 * 262144 + b1 % 64 * 4096 + b2 % 64 * 64 + b3 % 64 < 0x80) := by
                  omega
                have e2 : ¬ (b % 8 * 262144 + b1 % 64 * 4096 + b2 % 64 * 64 + b3 % 64 < 0x800) := by
                  omega
                have e3 : ¬ ((0xD800 ≤ b % 8 * 262144 + b1 % 64 * 4096 + b2 % 64 * 64 + b3 % 64 ∧
                    b % 8 * 262144 + b1 % 64 * 4096 + b2 % 64 * 64 + b3 % 64 ≤ 0xDFFF) ∨
                    0x10FFFF < b % 8 * 262144 + b1 % 64 * 4096 + b2 % 64 * 64 + b3 % 64) := by
                  omega
                have e4 : ¬ (b % 8 * 262144 + b1 % 64 * 4096 + b2 % 64 * 64 + b3 % 64
                    < 0x10000) := by omega
                rw [if_neg e1, if_neg e2, if_neg e3, if_neg e4]
                have f1 : 0xF0 + (b % 8 * 262144 + b1 % 64 * 4096 + b2 % 64 * 64 + b3 % 64)
                    / 262144 = b := by omega
                have f2 : 0x80 + (b % 8 * 262144 + b1 % 64 * 4096 + b2 % 64 * 64 + b3 % 64)
                    / 4096 % 64 = b1 := by omega
                have f3 : 0x80 + (b % 8 * 262144 + b1 % 64 * 4096 + b2 % 64 * 64 + b3 % 64)
                    / 64 % 64 = b2 := by omega
                have f4 : 0x80 + (b % 8 * 262144 + b1 % 64 * 4096 + b2 % 64 * 64 + b3 % 64)
                    % 64 = b3 := by omega
                rw [f1, f2, f3, f4]
            · rw [if_neg hc] at hv
              exact absurd hv (by simp)
        · simp only [h4, if_false] at hv
          exact absurd hv (by simp)


theorem unquoteAux_u2028 (W : Bytes) :
    unquoteAux 0 (ascii "\\u202" ++ [hexDigit (0x2028 % 16)] ++ W) =
      (unquoteAux 0 W).map (fun p => ([0xE2, 0x80, 0xA8] ++ p.1, p.2)) := rfl

theorem unquoteAux_u2029 (W : Bytes) :
    unquoteAux 0 (ascii "\\u202" ++ [hexDigit (0x2029 % 16)] ++ W) =
      (unquoteAux 0 W).map (fun p => ([0xE2, 0x80, 0xA9] ++ p.1, p.2)) := rfl

/-- Decoding a multi-byte rune that is followed by `W`. -/
theorem unquoteAux_rune (b : Nat) (tl W : Bytes) (r : Nat) (hb : 0x80 ≤ b)
    (hd : decodeRune (b :: (tl ++ W)) = (r, tl.length + 1)) :
    unquoteAux 0 (b :: (tl ++ W)) =
      (unquoteAux 0 W).map (fun p => (encodeRune r ++ p.1, p.2)) := by
  have h1 : ¬ b = 0x22 := by omega
  have h2 : ¬ b = 0x5C := by omega
  have h3 : ¬ b < 0x20 := by omega
  have h4 : ¬ b < 0x80 := by omega
  simp only [unquoteAux, h1, h2, h3, h4, if_false, hd, Nat.add_sub_cancel]
  rw [unquoteAux_skip, List.drop_left]

theorem utf8ValidAux_cons (b : Nat) (t : Bytes) (hv : utf8ValidAux 0 (b :: t) = true) :
    ¬ ((decodeRune (b :: t)).1 = RuneError ∧ (decodeRune (b :: t)).2 = 1) ∧
      utf8ValidAux ((decodeRune (b :: t)).2 - 1) t = true := by
  simp only [utf8ValidAux] at hv
  by_cases hx : (decodeRune (b :: t)).1 = RuneError ∧ (decodeRune (b :: t)).2 = 1
  · rw [if_pos hx] at hv
    exact absurd hv (by decide)
  · rw [if_neg hx] at hv
    exact ⟨hx, hv⟩

theorem decodeRune_ascii (b : Nat) (t : Bytes) (hb : b < 0x80) : decodeRune (b :: t) = (b, 1) := by
  simp only [decodeRune, hb, if_true]

/-- The string decoder inverts the string encoder on valid UTF-8. -/
theorem unquoteAux_appendStringAux :
    ∀ (n : Nat) (s : Bytes), s.length ≤ n → utf8ValidAux 0 s = true →
      ∀ rest, unquoteAux 0 (appendStringAux 0 s ++ 0x22 :: rest) = some (s, rest) := by
  intro n
  induction n with
  | zero =>
    intro s hs _ rest
    have : s = [] := List.length_eq_zero.mp (Nat.le_zero.mp hs)
    subst this
    rfl
  | succ n ih =>
    intro s hs hv rest
    cases s with
    | nil => rfl
    | cons b t =>
      have hlen : t.length ≤ n := Nat.le_of_succ_le_succ hs
      obtain ⟨hne, hv1⟩ := utf8ValidAux_cons b t hv
      by_cases hb : b < 0x80
      · have hvt : utf8ValidAux 0 t = true := by
          rw [decodeRune_ascii b t hb] at hv1
          exact hv1
        simp only [appendStringAux, hb, if_true]
        rw [List.append_assoc, unquoteAux_ascii b hb, ih t hlen hvt rest]
        rfl
      · have hb1 : 0x80 ≤ b := Nat.le_of_not_lt hb
        obtain ⟨tl, t1, ht, hsz, hl1, hl3, hdec, henc⟩ := decodeRune_valid b t hb1 hne
        subst ht
        have hvt : utf8ValidAux 0 t1 = true := by
          rw [utf8ValidAux_skip, ← hsz, Nat.add_sub_cancel, List.drop_left] at hv1
          exact hv1
        have hlen1 : t1.length ≤ n := by
          rw [List.length_append] at hlen
          omega
        have htake : decodeRune ((b :: (tl ++ t1)).take 4) = decodeRune (b :: (tl ++ t1)) := by
          rw [List.take_succ_cons, List.take_append_eq_append_take,
            List.take_of_length_le (show tl.length ≤ 3 from hl3)]
          exact hdec _
        have hdrop : appendStringAux ((decodeRune (b :: (tl ++ t1))).2 - 1) (tl ++ t1)
            = appendStringAux 0 t1 := by
          rw [appendStringAux_skip, ← hsz, Nat.add_sub_cancel, List.drop_left]
        have htk : (b :: (tl ++ t1)).take (decodeRune (b :: (tl ++ t1))).2 = b :: tl := by
          rw [← hsz, List.take_succ_cons, List.take_left]
        have hih := ih t1 hlen1 hvt rest
        simp only [appendStringAux, hb, if_false, htake, hne, hdrop, htk]
        by_cases h28 : (decodeRune (b :: (tl ++ t1))).1 = 0x2028
        · rw [if_pos (Or.inl h28), h28, List.append_assoc, unquoteAux_u2028, hih]
          rw [h28] at henc
          have : b :: tl = [0xE2, 0x80, 0xA8] := henc.symm.trans (by decide)
          rw [← List.cons_append, this]
          rfl
        · by_cases h29 : (decodeRune (b :: (tl ++ t1))).1 = 0x2029
          · rw [if_pos (Or.inr h29), h29, List.append_assoc, unquoteAux_u2029, hih]
            rw [h29] at henc
            have : b :: tl = [0xE2, 0x80, 0xA9] := henc.symm.trans (by decide)
            rw [← List.cons_append, this]
            rfl
          · have hno : ¬ ((decodeRune (b :: (tl ++ t1))).1 = 0x2028 ∨
                (decodeRune (b :: (tl ++ t1))).1 = 0x2029) :=
              fun hx => hx.elim h28 h29
            rw [if_neg hno, List.cons_append, List.cons_append, List.append_assoc,
              unquoteAux_rune b tl _ (decodeRune (b :: (tl ++ t1))).1 hb1
                (by rw [hdec, hsz]), hih, henc]
            rfl

theorem unquoteAux_appendString (s : Bytes) (hv : utf8Valid s = true) (rest : Bytes) :
    unquoteAux 0 (appendStringAux 0 s ++ 0x22 :: rest) = some (s, rest) :=
  unquoteAux_appendStringAux s.length s (Nat.le_refl _) hv rest


/-- The digits of `digitsRev`: all are decimal digits, the last (the most
significant) is `0` only for the number 0, and their value is the number. -/
theorem digitsRev_spec : ∀ (fuel n : Nat), n < fuel →
    ∃ l d, digitsRev fuel n = l ++ [d] ∧ isDigit d = true ∧ (∀ x ∈ l, isDigit x = true) ∧
      (d = 0x30 → l = []) ∧
      (digitsRev fuel n).foldr (fun x acc => acc * 10 + (x - 0x30)) 0 = n := by
  intro fuel
  induction fuel with
  | zero => intro n hn; exact absurd hn (Nat.not_lt_zero n)
  | succ fuel ih =>
    intro n hn
    by_cases h10 : n < 10
    · refine ⟨[], 0x30 + n, ?_, ?_, ?_, ?_, ?_⟩
      · simp only [digitsRev, h10, if_true, List.nil_append]
      · simp only [isDigit, Bool.and_eq_true, decide_eq_true_eq]
        omega
      · intro x hx; exact absurd hx (List.not_mem_nil x)
      · intro _; rfl
      · simp only [digitsRev, h10, if_true, List.foldr_cons, List.foldr_nil]
        omega
    · have hlt : n / 10 < fuel := by omega
      obtain ⟨l, d, e, hd, hl, h0, hval⟩ := ih (n / 10) hlt
      have hd0 : d ≠ 0x30 := by
        intro hx
        have hl0 := h0 hx
        subst hl0
        rw [e, hx] at hval
        simp only [List.nil_append, List.foldr_cons, List.foldr_nil] at hval
        omega
      refine ⟨(0x30 + n % 10) :: l, d, ?_, hd, ?_, fun hx => absurd hx hd0, ?_⟩
      · simp only [digitsRev, h10, if_false, e, List.cons_append]
      · intro x hx
        rcases List.mem_cons.mp hx with hx | hx
        · subst hx
          simp only [isDigit, Bool.and_eq_true, decide_eq_true_eq]
          omega
        · exact hl x hx
      · simp only [digitsRev, h10, if_false, List.foldr_cons, hval]
        omega

theorem takeDigits_append (ds : Bytes) (c : Nat) (rest : Bytes)
    (hds : ∀ x ∈ ds, isDigit x = true) (hc : isDigit c = false) :
    takeDigits (ds ++ c :: rest) = (ds, c :: rest) := by
  induction ds with
  | nil => simp only [List.nil_append, takeDigits, hc, Bool.false_eq_true, if_false]
  | cons d ds ih =>
    have hd := hds d (List.mem_cons_self d ds)
    have ih1 := ih (fun x hx => hds x (List.mem_cons_of_mem d hx))
    rw [List.cons_append, takeDigits, if_pos hd, ih1]

/-- The decimal text of a natural number, most significant digit first. -/
theorem decimal_spec (n : Nat) :
    ∃ d ds, (digitsRev (n + 1) n).reverse = d :: ds ∧ isDigit d = true ∧
      (∀ x ∈ ds, isDigit x = true) ∧ (d = 0x30 → ds = []) ∧
      (d :: ds).foldl (fun acc x => acc * 10 + (x - 0x30)) 0 = n := by
  obtain ⟨l, d, e, hd, hl, h0, hval⟩ := digitsRev_spec (n + 1) n (Nat.lt_succ_self n)
  refine ⟨d, l.reverse, ?_, hd, ?_, ?_, ?_⟩
  · rw [e, List.reverse_append, List.reverse_singleton, List.singleton_append]
  · intro x hx
    exact hl x (List.mem_reverse.mp hx)
  · intro hx
    rw [h0 hx]
    rfl
  · have : d :: l.reverse = (digitsRev (n + 1) n).reverse := by
      rw [e, List.reverse_append, List.reverse_singleton, List.singleton_append]
    rw [this, List.foldl_reverse]
    exact hval

/-- The number scanner reads back the text that `formatInt` writes, up to
the closing brace that follows it. -/
theorem parseNumber_formatInt (v : Int) (rest : Bytes) :
    parseNumber (formatInt v ++ 0x7D :: rest) = some (formatInt v, 0x7D :: rest) := by
  obtain ⟨d, ds, e, hd, hds, h0, _⟩ := decimal_spec v.natAbs
  have hdig : isDigit d = true := hd
  have hd2 : d ≠ 0x2D := by
    intro hx
    rw [hx] at hd
    exact absurd hd (by decide)
  have hfrac : parseFraction (0x7D :: rest) = some ([], 0x7D :: rest) := rfl
  have hbody : ∀ sign : Bytes,
      (match d :: (ds ++ 0x7D :: rest) with
        | [] => none
        | d :: rest =>
          if d = 0x30 then (parseFraction rest).map fun p => (sign ++ d :: p.1, p.2)
          else if isDigit d then
            (parseFraction (takeDigits rest).2).map
              fun p => (sign ++ d :: (takeDigits rest).1 ++ p.1, p.2)
          else none) = some (sign ++ d :: ds, 0x7D :: rest) := by
    intro sign
    simp only
    by_cases hz : d = 0x30
    · rw [if_pos hz, h0 hz, List.nil_append, hfrac]
      rfl
    · rw [if_neg hz, if_pos hdig, takeDigits_append ds 0x7D rest hds (by decide), hfrac]
      simp only [Option.map_some', List.append_nil]
  unfold parseNumber formatInt
  rw [e]
  by_cases hv : v < 0
  · simp only [hv, if_true, List.singleton_append, List.cons_append, List.head?_cons,
      List.tail_cons]
    exact hbody [0x2D]
  · have hh : ¬ (some d = some 0x2D) := fun hx => hd2 (Option.some.inj hx)
    simp only [hv, if_false, List.nil_append, List.cons_append, List.head?_cons, hh]
    exact hbody []


theorem formatInt_eq (v : Int) :
    ∃ d ds, formatInt v = (if v < 0 then [0x2D] else []) ++ d :: ds ∧ isDigit d = true ∧
      (∀ x ∈ ds, isDigit x = true) ∧
      (d :: ds).foldl (fun acc x => acc * 10 + (x - 0x30)) 0 = v.natAbs := by
  obtain ⟨d, ds, e, hd, hds, _, hval⟩ := decimal_spec v.natAbs
  exact ⟨d, ds, by unfold formatInt; rw [e], hd, hds, hval⟩

theorem digitsValue_digits (d : Nat) (ds : Bytes) (hd : isDigit d = true)
    (hds : ∀ x ∈ ds, isDigit x = true) :
    digitsValue (d :: ds) = some ((d :: ds).foldl (fun acc x => acc * 10 + (x - 0x30)) 0) := by
  have hany : ¬ ((d :: ds) = [] ∨ (d :: ds).any (fun c => !isDigit c) = true) := by
    intro hx
    rcases hx with hx | hx
    · exact List.cons_ne_nil d ds hx
    · obtain ⟨x, hx1, hx2⟩ := List.any_eq_true.mp hx
      have hx3 : isDigit x = true := by
        rcases List.mem_cons.mp hx1 with h | h
        · rw [h]; exact hd
        · exact hds x h
      rw [hx3] at hx2
      exact absurd hx2 (by decide)
  unfold digitsValue
  rw [if_neg hany]

/-- The function `ParseInt` reads back the text that `formatInt` writes for a
value of type `int64`. -/
theorem parseInt64_formatInt (v : Int) (hlo : -(2 : Int) ^ 63 ≤ v) (hhi : v < (2 : Int) ^ 63) :
    parseInt64 (formatInt v) = some v := by
  obtain ⟨d, ds, e, hd, hds, hval⟩ := formatInt_eq v
  have hd2 : d ≠ 0x2D := by
    intro hx; rw [hx] at hd; exact absurd hd (by decide)
  have hd3 : d ≠ 0x2B := by
    intro hx; rw [hx] at hd; exact absurd hd (by decide)
  have hdv := digitsValue_digits d ds hd hds
  rw [hval] at hdv
  unfold parseInt64
  rw [e]
  by_cases hv : v < 0
  · simp only [hv, if_true, List.singleton_append, List.head?_cons, true_or, List.tail_cons, hdv,
      decide_True]
    have h1 : v.natAbs ≤ 2 ^ 63 := by omega
    rw [if_pos h1]
    congr 1
    omega
  · have hh : ¬ (some d = some 0x2D) := fun hx => hd2 (Option.some.inj hx)
    have hh2 : ¬ (some d = some 0x2B) := fun hx => hd3 (Option.some.inj hx)
    simp only [hv, if_false, List.nil_append, List.head?_cons, hh, hh2, or_self, hdv,
      decide_False, Bool.false_eq_true]
    have h1 : v.natAbs < 2 ^ 63 := by omega
    rw [if_pos h1]
    congr 1
    omega

theorem parseValue_number (fuel depth : Nat) (v : Int) (R : Bytes) :
    parseValue (fuel + 1) depth (formatInt v ++ 0x7D :: R) =
      some (JValue.number (formatInt v), 0x7D :: R) := by
  have hnum := parseNumber_formatInt v R
  obtain ⟨d, ds, e, hd, _, _⟩ := formatInt_eq v
  have hdr : 0x30 ≤ d ∧ d ≤ 0x39 := by
    simpa only [isDigit, Bool.and_eq_true, decide_eq_true_eq] using hd
  have hhead : ∃ c tl, formatInt v = c :: tl ∧ (c = 0x2D ∨ isDigit c = true) := by
    by_cases hv : v < 0
    · exact ⟨0x2D, d :: ds, by rw [e, if_pos hv]; rfl, Or.inl rfl⟩
    · exact ⟨d, ds, by rw [e, if_neg hv]; rfl, Or.inr hd⟩
  obtain ⟨c, tl, ec, hc⟩ := hhead
  rw [ec] at hnum ⊢
  have hcr : c = 0x2D ∨ (0x30 ≤ c ∧ c ≤ 0x39) := by
    rcases hc with h | h
    · exact Or.inl h
    · right
      simpa only [isDigit, Bool.and_eq_true, decide_eq_true_eq] using h
  have hsp : isSpace c = false := by
    simp only [isSpace, Bool.or_eq_false_iff, beq_eq_false_iff_ne, ne_eq]
    omega
  have h1 : ¬ c = 0x7B := by omega
  have h2 : ¬ c = 0x5B := by omega
  have h3 : ¬ c = 0x22 := by omega
  have hsk : skipSpace (c :: tl ++ 0x7D :: R) = c :: (tl ++ 0x7D :: R) := by
    rw [List.cons_append, skipSpace, hsp]
    rfl
  rw [parseValue, hsk]
  simp only [h1, h2, h3, if_false, hc, if_true]
  rw [← List.cons_append, hnum]
  rfl

theorem parseValue_string (fuel depth : Nat) (s : Bytes) (hv : utf8Valid s = true) (R : Bytes) :
    parseValue (fuel + 1) depth (appendString s ++ R) = some (JValue.string s, R) := by
  have hsk : skipSpace (appendString s ++ R) = 0x22 :: (appendStringAux 0 s ++ 0x22 :: R) := by
    unfold appendString
    simp only [List.singleton_append, List.cons_append, List.append_assoc, List.nil_append]
    rfl
  rw [parseValue, hsk]
  simp only [show ¬ ((0x22 : Nat) = 0x7B) by decide, show ¬ ((0x22 : Nat) = 0x5B) by decide,
    if_false, if_true, unquoteAux_appendString s hv R, Option.map_some']


theorem toJSON_eq (e : JSONErrorStruct) :
    toJSON e = 0x7B :: 0x22 :: 0x6D :: 0x73 :: 0x67 :: 0x22 :: 0x3A ::
      (appendString e.Msg ++ (0x2C :: 0x22 :: 0x63 :: 0x6F :: 0x64 :: 0x65 :: 0x22 :: 0x3A ::
        (formatInt e.Code ++ [0x7D]))) := by
  have h1 : ascii "\x7b\"msg\":" = [0x7B, 0x22, 0x6D, 0x73, 0x67, 0x22, 0x3A] := by decide
  have h2 : ascii ",\"code\":" = [0x2C, 0x22, 0x63, 0x6F, 0x64, 0x65, 0x22, 0x3A] := by decide
  have h3 : ascii "\x7d" = [0x7D] := by decide
  unfold toJSON
  rw [h1, h2, h3]
  simp only [List.append_assoc, List.cons_append, List.nil_append]

theorem parseMembers_code (fuel : Nat) (v : Int) :
    parseMembers (fuel + 2) 1
      (0x22 :: 0x63 :: 0x6F :: 0x64 :: 0x65 :: 0x22 :: 0x3A :: (formatInt v ++ [0x7D])) =
      some ([(ascii "code", JValue.number (formatInt v))], []) := by
  have hkey : unquoteAux 0 (0x63 :: 0x6F :: 0x64 :: 0x65 :: 0x22 :: 0x3A :: (formatInt v ++ [0x7D]))
      = some (ascii "code", 0x3A :: (formatInt v ++ [0x7D])) := rfl
  have hsk : skipSpace (0x3A :: (formatInt v ++ [0x7D])) = 0x3A :: (formatInt v ++ [0x7D]) := rfl
  have hsk2 : skipSpace ((0x7D : Nat) :: []) = [0x7D] := rfl
  rw [parseMembers]
  simp only [if_true, hkey, hsk, parseValue_number (fuel) 1 v [], hsk2,
    show ¬ ((0x7D : Nat) = 0x2C) by decide, if_false]

theorem parseMembers_envelope (fuel : Nat) (e : JSONErrorStruct) (hv : utf8Valid e.Msg = true) :
    parseMembers (fuel + 3) 1
      (0x22 :: 0x6D :: 0x73 :: 0x67 :: 0x22 :: 0x3A ::
        (appendString e.Msg ++ (0x2C :: 0x22 :: 0x63 :: 0x6F :: 0x64 :: 0x65 :: 0x22 :: 0x3A ::
          (formatInt e.Code ++ [0x7D])))) =
      some ([(ascii "msg", JValue.string e.Msg),
             (ascii "code", JValue.number (formatInt e.Code))], []) := by
  have hkey : ∀ R : Bytes, unquoteAux 0 (0x6D :: 0x73 :: 0x67 :: 0x22 :: R) = some (ascii "msg", R) :=
    fun _ => rfl
  have hsk : ∀ R : Bytes, skipSpace (0x3A :: R) = 0x3A :: R := fun _ => rfl
  have hsk2 : ∀ R : Bytes, skipSpace (0x2C :: R) = 0x2C :: R := fun _ => rfl
  have hsk3 : ∀ R : Bytes, skipSpace (0x22 :: R) = 0x22 :: R := fun _ => rfl
  rw [parseMembers]
  simp only [if_true, hkey, hsk, parseValue_string (fuel + 1) 1 e.Msg hv, hsk2, hsk3,
    parseMembers_code fuel e.Code, Option.map_some']

theorem parseValue_envelope (fuel : Nat) (e : JSONErrorStruct) (hv : utf8Valid e.Msg = true) :
    parseValue (fuel + 4) 0 (toJSON e) =
      some (JValue.object [(ascii "msg", JValue.string e.Msg),
             (ascii "code", JValue.number (formatInt e.Code))], []) := by
  have hsk : ∀ R : Bytes, skipSpace (0x7B :: R) = 0x7B :: R := fun _ => rfl
  have hsk3 : ∀ R : Bytes, skipSpace (0x22 :: R) = 0x22 :: R := fun _ => rfl
  rw [toJSON_eq, parseValue]
  simp only [hsk, hsk3, if_true, show ¬ (maxNestingDepth ≤ 0) by decide, if_false,
    show ¬ ((0x22 : Nat) = 0x7D) by decide, Nat.zero_add, parseMembers_envelope fuel e hv,
    Option.map_some']

theorem toJSON_length (e : JSONErrorStruct) : 3 ≤ (toJSON e).length := by
  rw [toJSON_eq]
  simp only [List.length_cons]
  omega

/-- Storing the two members that `toJSON` writes. -/
theorem unmarshal_envelope (e : JSONErrorStruct) (hlo : -(2 : Int) ^ 63 ≤ e.Code)
    (hhi : e.Code < (2 : Int) ^ 63) :
    unmarshalJSONErrorStruct { Msg := [], Code := 0 }
      (JValue.object [(ascii "msg", JValue.string e.Msg),
        (ascii "code", JValue.number (formatInt e.Code))]) =
      (e, none) := by
  have h1 : equalFold (ascii "msg") (ascii "msg") = true := by decide
  have h2 : equalFold (ascii "msg") (ascii "code") = false := by decide
  have h3 : equalFold (ascii "code") (ascii "code") = true := by decide
  simp only [unmarshalJSONErrorStruct, List.foldl_cons, List.foldl_nil, storeField, h1, h2, h3,
    if_true, Bool.false_eq_true, if_false, storeMsg, storeCode,
    parseInt64_formatInt e.Code hlo hhi]

/-- C10, as stated, fails: the envelope whose `Msg` is the single byte 0xFF
(a Go string that is not valid UTF-8) is encoded with the replacement
character, and decoding gives back the three bytes of U+FFFD, not the
original message. -/
theorem toJSON_roundtrip_counterexample :
    decodeErrorBody (toJSON { Msg := [0xFF], Code := 500 }) =
      some { Msg := [0xEF, 0xBF, 0xBD], Code := 500 } ∧
    decodeErrorBody (toJSON { Msg := [0xFF], Code := 500 }) ≠
      some { Msg := [0xFF], Code := 500 } := by
  decide

/-- C10, amended: for every error envelope whose `Msg` is valid UTF-8 (and
whose `Code` is a Go `int`, within 64 bits), encoding it with `toJSON` and
decoding the bytes as the test helper does (unknown fields disallowed, no
error from `Decode`, `More` false) gives back exactly the original `Msg` and
`Code`. -/
theorem toJSON_roundtrip (e : JSONErrorStruct) (hv : utf8Valid e.Msg = true)
    (hlo : -(2 : Int) ^ 63 ≤ e.Code) (hhi : e.Code < (2 : Int) ^ 63) :
    decodeErrorBody (toJSON e) = some e := by
  have hlen := toJSON_length e
  obtain ⟨k, hk⟩ : ∃ k, 2 * (toJSON e).length + 1 = k + 4 :=
    ⟨2 * (toJSON e).length - 3, by omega⟩
  unfold decodeErrorBody decoderDecode
  rw [hk, parseValue_envelope k e hv]
  simp only [unmarshal_envelope e hlo hhi, Option.isSome_none, Bool.false_eq_true, if_false,
    decoderMore, skipSpace]

/-- The envelope of `TestError400`: message `Bad Request`, code 400. -/
theorem toJSON_roundtrip_witness :
    utf8Valid (ascii "Bad Request") = true ∧
    -(2 : Int) ^ 63 ≤ 400 ∧ (400 : Int) < (2 : Int) ^ 63 ∧
    decodeErrorBody (toJSON { Msg := ascii "Bad Request", Code := 400 }) =
      some { Msg := ascii "Bad Request", Code := 400 } :=
  ⟨by decide, by decide, by decide,
    toJSON_roundtrip { Msg := ascii "Bad Request", Code := 400 } (by decide) (by decide)
      (by decide)⟩

/-! ## The text of status errors -/


/-- The status of the error built by `httpStatusString` is the code given. -/
theorem httpStatusString_code (code : Int) (msg : Bytes) :
    (httpStatusString code msg).HTTPStatusCode = some code ∧
    (httpStatusString code msg).Cause = httpStatusString code msg := ⟨rfl, rfl⟩

/-- The text of the error built by `httpStatusString` is the message
formatted by `fmt.Sprintf` with no operands; it is the message itself when
the message has no `%`. -/
theorem httpStatusString_error (code : Int) (msg : Bytes) :
    (httpStatusString code msg).Error = fmtSprintf msg ∧
    (0x25 ∉ msg → (httpStatusString code msg).Error = msg) :=
  ⟨rfl, fun hp => fmtSprintf_no_percent msg hp⟩

/-- The envelope that the wrapper writes for the error of `httpStatusString`
with a code outside the 2xx range that `WriteHeader` accepts: its msg is the
formatted message. -/
theorem ServeHTTP_httpStatusString (data : Option Bytes) (code : Int) (msg : Bytes)
    (hbad : ¬ (200 ≤ code ∧ code ≤ 299)) (h1 : 100 ≤ code) (h2 : code ≤ 999) :
    dataHandler.ServeHTTP (data, some (httpStatusString code msg)) =
      some ⟨some (ascii "application/json"), code,
        toJSON { Msg := fmtSprintf msg, Code := code }⟩ := by
  have hb : isBadCode (((httpStatusString code msg).Cause.HTTPStatusCode).getD 500) = true :=
    (isBadCode_iff code).mpr hbad
  rw [ServeHTTP_some_bad data _ hb]
  exact sendResponse_valid _ code h1 h2

/-- C11 fails on the code: for the message `100%` the error built by
`httpStatusString(400, msg)` reports `HTTPStatusCode()` 400, but its
`Error()` is `100%!(NOVERB)`, not the message, because the message is passed
to `fmt.Errorf` as the format; the envelope that the wrapper writes carries
the changed text. -/
theorem httpStatusString_percent :
    (httpStatusString 400 (ascii "100%")).HTTPStatusCode = some 400 ∧
    (httpStatusString 400 (ascii "100%")).Error = ascii "100%!(NOVERB)" ∧
    (httpStatusString 400 (ascii "100%")).Error ≠ ascii "100%" ∧
    dataHandler.ServeHTTP (none, some (httpStatusString 400 (ascii "100%"))) =
      some ⟨some (ascii "application/json"), 400,
        ascii "\x7b\"msg\":\"100%!(NOVERB)\",\"code\":400\x7d"⟩ ∧
    dataHandler.ServeHTTP (none, some (httpStatusString 400 (ascii "100%"))) ≠
      some ⟨some (ascii "application/json"), 400,
        toJSON { Msg := ascii "100%", Code := 400 }⟩ := by
  decide

/-- Other messages with a `%`: a verb without operand is reported as
missing, and `%%` is printed as one `%`. -/
theorem httpStatusString_percent_more :
    (httpStatusString 400 (ascii "50% off")).Error = ascii "50%!o(MISSING)ff" ∧
    (httpStatusString 400 (ascii "bad id %d")).Error = ascii "bad id %!d(MISSING)" ∧
    (httpStatusString 400 (ascii "100%%")).Error = ascii "100%" := by
  decide

/-! ## The round trip of a message that is not valid UTF-8 -/

theorem toValidUTF8Aux_skip : ∀ (k : Nat) (s : Bytes),
    toValidUTF8Aux k s = s.take k ++ toValidUTF8Aux 0 (s.drop k) := by
  intro k
  induction k with
  | zero => intro s; rfl
  | succ k ih =>
    intro s
    cases s with
    | nil => rfl
    | cons b t =>
      rw [toValidUTF8Aux, ih t]
      rfl

theorem decodeRune_take4 (l : Bytes) : decodeRune (l.take 4) = decodeRune l := by
  match l with
  | [] => rfl
  | [_] => rfl
  | [_, _] => rfl
  | [_, _, _] => rfl
  | _ :: _ :: _ :: _ :: _ => rfl

theorem unquoteAux_replacement (W : Bytes) :
    unquoteAux 0 (encodeRune RuneError ++ W) =
      (unquoteAux 0 W).map (fun p => (encodeRune RuneError ++ p.1, p.2)) := rfl

/-- The string decoder applied to the output of the string encoder gives the
source coerced to valid UTF-8. -/
theorem unquoteAux_appendStringAux_coerced :
    ∀ (n : Nat) (s : Bytes), s.length ≤ n →
      ∀ rest, unquoteAux 0 (appendStringAux 0 s ++ 0x22 :: rest) =
        some (toValidUTF8Aux 0 s, rest) := by
  intro n
  induction n with
  | zero =>
    intro s hs rest
    have : s = [] := List.length_eq_zero.mp (Nat.le_zero.mp hs)
    subst this
    rfl
  | succ n ih =>
    intro s hs rest
    cases s with
    | nil => rfl
    | cons b t =>
      have hlen : t.length ≤ n := Nat.le_of_succ_le_succ hs
      by_cases hb : b < 0x80
      · have hd := decodeRune_ascii b t hb
        have hne : ¬ ((decodeRune (b :: t)).1 = RuneError ∧ (decodeRune (b :: t)).2 = 1) := by
          rw [hd]
          unfold RuneError
          intro hx
          have := hx.1
          simp only at this
          omega
        simp only [appendStringAux, hb, if_true, toValidUTF8Aux, hne, if_false]
        rw [hd, List.append_assoc, unquoteAux_ascii b hb, ih t hlen rest]
        rfl
      · have hb1 : 0x80 ≤ b := Nat.le_of_not_lt hb
        by_cases hne : (decodeRune (b :: t)).1 = RuneError ∧ (decodeRune (b :: t)).2 = 1
        · simp only [appendStringAux, hb, if_false, decodeRune_take4, hne, and_self, if_true,
            toValidUTF8Aux]
          rw [List.append_assoc, unquoteAux_replacement, ih t hlen rest]
          rfl
        · obtain ⟨tl, t1, ht, hsz, hl1, hl3, hdec, henc⟩ := decodeRune_valid b t hb1 hne
          subst ht
          have hlen1 : t1.length ≤ n := by
            rw [List.length_append] at hlen
            omega
          have hdrop : appendStringAux ((decodeRune (b :: (tl ++ t1))).2 - 1) (tl ++ t1)
              = appendStringAux 0 t1 := by
            rw [appendStringAux_skip, ← hsz, Nat.add_sub_cancel, List.drop_left]
          have htk : (b :: (tl ++ t1)).take (decodeRune (b :: (tl ++ t1))).2 = b :: tl := by
            rw [← hsz, List.take_succ_cons, List.take_left]
          have hcoerce : toValidUTF8Aux ((decodeRune (b :: (tl ++ t1))).2 - 1) (tl ++ t1)
              = tl ++ toValidUTF8Aux 0 t1 := by
            rw [toValidUTF8Aux_skip, ← hsz, Nat.add_sub_cancel, List.take_left, List.drop_left]
          have hih := ih t1 hlen1 rest
          simp only [appendStringAux, hb, if_false, decodeRune_take4, hne, hdrop, htk,
            toValidUTF8Aux, hcoerce]
          by_cases h28 : (decodeRune (b :: (tl ++ t1))).1 = 0x2028
          · rw [if_pos (Or.inl h28), h28, List.append_assoc, unquoteAux_u2028, hih]
            rw [h28] at henc
            have : b :: tl = [0xE2, 0x80, 0xA8] := henc.symm.trans (by decide)
            rw [← List.cons_append, this]
            rfl
          · by_cases h29 : (decodeRune (b :: (tl ++ t1))).1 = 0x2029
            · rw [if_pos (Or.inr h29), h29, List.append_assoc, unquoteAux_u2029, hih]
              rw [h29] at henc
              have : b :: tl = [0xE2, 0x80, 0xA9] := henc.symm.trans (by decide)
              rw [← List.cons_append, this]
              rfl
            · have hno : ¬ ((decodeRune (b :: (tl ++ t1))).1 = 0x2028 ∨
                  (decodeRune (b :: (tl ++ t1))).1 = 0x2029) :=
                fun hx => hx.elim h28 h29
              rw [if_neg hno, List.cons_append, List.cons_append, List.append_assoc,
                unquoteAux_rune b tl _ (decodeRune (b :: (tl ++ t1))).1 hb1
                  (by rw [hdec, hsz]), hih, henc]
              rfl

/-- Valid UTF-8 is left as it is by the coercion. -/
theorem toValidUTF8_valid :
    ∀ (n : Nat) (s : Bytes), s.length ≤ n → utf8ValidAux 0 s = true → toValidUTF8Aux 0 s = s := by
  intro n
  induction n with
  | zero =>
    intro s hs _
    have : s = [] := List.length_eq_zero.mp (Nat.le_zero.mp hs)
    subst this
    rfl
  | succ n ih =>
    intro s hs hv
    cases s with
    | nil => rfl
    | cons b t =>
      obtain ⟨hne, hv1⟩ := utf8ValidAux_cons b t hv
      rw [toValidUTF8Aux, if_neg hne, toValidUTF8Aux_skip]
      rw [utf8ValidAux_skip] at hv1
      have hl : (t.drop ((decodeRune (b :: t)).2 - 1)).length ≤ n := by
        have h1 : t.length ≤ n := Nat.le_of_succ_le_succ hs
        rw [List.length_drop]
        omega
      rw [ih _ hl hv1, List.take_append_drop]


theorem parseValue_string_coerced (fuel depth : Nat) (s R : Bytes) :
    parseValue (fuel + 1) depth (appendString s ++ R) = some (JValue.string (toValidUTF8 s), R) := by
  have hsk : skipSpace (appendString s ++ R) = 0x22 :: (appendStringAux 0 s ++ 0x22 :: R) := by
    unfold appendString
    simp only [List.singleton_append, List.cons_append, List.append_assoc, List.nil_append]
    rfl
  rw [parseValue, hsk]
  simp only [show ¬ ((0x22 : Nat) = 0x7B) by decide, show ¬ ((0x22 : Nat) = 0x5B) by decide,
    if_false, if_true, unquoteAux_appendStringAux_coerced s.length s (Nat.le_refl _) R,
    Option.map_some', toValidUTF8]

theorem parseValue_envelope_coerced (fuel : Nat) (e : JSONErrorStruct) :
    parseValue (fuel + 4) 0 (toJSON e) =
      some (JValue.object [(ascii "msg", JValue.string (toValidUTF8 e.Msg)),
             (ascii "code", JValue.number (formatInt e.Code))], []) := by
  have hkey : ∀ R : Bytes, unquoteAux 0 (0x6D :: 0x73 :: 0x67 :: 0x22 :: R) = some (ascii "msg", R) :=
    fun _ => rfl
  have hc : ∀ R : Bytes, skipSpace (0x3A :: R) = 0x3A :: R := fun _ => rfl
  have hcm : ∀ R : Bytes, skipSpace (0x2C :: R) = 0x2C :: R := fun _ => rfl
  have hq : ∀ R : Bytes, skipSpace (0x22 :: R) = 0x22 :: R := fun _ => rfl
  have hb : ∀ R : Bytes, skipSpace (0x7B :: R) = 0x7B :: R := fun _ => rfl
  have hmem : parseMembers (fuel + 3) 1
      (0x22 :: 0x6D :: 0x73 :: 0x67 :: 0x22 :: 0x3A ::
        (appendString e.Msg ++ (0x2C :: 0x22 :: 0x63 :: 0x6F :: 0x64 :: 0x65 :: 0x22 :: 0x3A ::
          (formatInt e.Code ++ [0x7D])))) =
      some ([(ascii "msg", JValue.string (toValidUTF8 e.Msg)),
             (ascii "code", JValue.number (formatInt e.Code))], []) := by
    rw [parseMembers]
    simp only [if_true, hkey, hc, parseValue_string_coerced (fuel + 1) 1 e.Msg,
      hcm, hq, parseMembers_code fuel e.Code, Option.map_some']
  rw [toJSON_eq, parseValue]
  simp only [hb, hq, if_true, show ¬ (maxNestingDepth ≤ 0) by decide, if_false,
    show ¬ ((0x22 : Nat) = 0x7D) by decide, Nat.zero_add, hmem, Option.map_some']

/-- The round trip of the error envelope for every message: encoding with
`toJSON` and decoding as the test helper does gives back the code, and the
message coerced to valid UTF-8, that is with every byte that is not part of
a valid encoding replaced by U+FFFD. -/
theorem toJSON_decode_coerced (e : JSONErrorStruct) (hlo : -(2 : Int) ^ 63 ≤ e.Code)
    (hhi : e.Code < (2 : Int) ^ 63) :
    decodeErrorBody (toJSON e) = some { Msg := toValidUTF8 e.Msg, Code := e.Code } := by
  have hlen := toJSON_length e
  obtain ⟨k, hk⟩ : ∃ k, 2 * (toJSON e).length + 1 = k + 4 :=
    ⟨2 * (toJSON e).length - 3, by omega⟩
  unfold decodeErrorBody decoderDecode
  rw [hk, parseValue_envelope_coerced k e]
  simp only [unmarshal_envelope { Msg := toValidUTF8 e.Msg, Code := e.Code } hlo hhi,
    Option.isSome_none, Bool.false_eq_true, if_false, decoderMore, skipSpace]

/-- Three invalid bytes in a message come back as three replacement
characters; the valid bytes between them are kept. -/
theorem toValidUTF8_example :
    toValidUTF8 [0x61, 0xFF, 0xC3, 0x62, 0xC3, 0xA9, 0x80] =
      [0x61, 0xEF, 0xBF, 0xBD, 0xEF, 0xBF, 0xBD, 0x62, 0xC3, 0xA9, 0xEF, 0xBF, 0xBD] := by
  decide

end GoWeb
